import Mathlib

/-!
Verification development for the PromptP repository (a prompt-enhancement SaaS).

The development shallowly embeds the TypeScript modules that the verified
claims are about:

* `src/server/template-manager.ts`   (mustache-style `\x7b\x7bvar\x7d\x7d` substitution)
* `src/server/prompt-quality-analyzer.ts` (regex battery + weighted score, in-memory storage)
* `src/client/src/lib/utils/ai-engine.ts` (rule-based prompt enhancement)
* the Express route handlers (`registerRoutes`) and the `MemStorage` class.

Modelling conventions:

* JS strings are `List Char`; string literals are written with `.toList`.
* JS numbers are `ℚ` (exact rationals; the float values arising here are
  small and far from rounding boundaries) and counters are `Nat`/`ℤ`.
* JS regexes are embedded via a small explicit backtracking engine (`Re`)
  whose candidate order mirrors the JS engine (leftmost, greedy,
  left-alternative first); each source pattern is transcribed as a `Re` value.
* `Math.random`-based ids are modelled as sequentially assigned `Nat` ids
  (only distinctness is ever used).
* A JS `Date` is modelled by the observations the server code makes of it:
  calendar fields (`getFullYear/getMonth/getDate`) and epoch millis
  (`getTime`); `setDate` day arithmetic is modelled as exact-day millis.
-/

namespace PromptP

/-- Whitespace class of the JS regex `\s` (ASCII subset; the repository only
processes ASCII text). -/
def isWS (c : Char) : Bool :=
  c = ' ' || c = '\t' || c = '\n' || c = '\r' || c = '\x0b' || c = '\x0c'

/-- Case folding used to model the `i` regex flag and `toLowerCase()`. -/
def foldCase (s : List Char) : List Char :=
  s.map Char.toLower

/-- JS `String.prototype.split(/\s+/)`: fields between maximal whitespace
runs, including an empty leading/trailing field when the string starts/ends
with whitespace ("" splits to [""]). `acc` is the current field read so far,
in reverse. -/
def splitWS (s : List Char) (acc : List Char) : List (List Char) :=
  match s with
  | [] => [acc.reverse]
  | c :: rest =>
    if isWS c then acc.reverse :: splitWS (rest.dropWhile isWS) []
    else splitWS rest (c :: acc)
termination_by s.length
decreasing_by
  · simp only [List.length_cons]
    have : (rest.dropWhile isWS).length ≤ rest.length :=
      List.Sublist.length_le (List.dropWhile_sublist isWS)
    omega
  · simp

/-- `countWords` from src/client/src/lib/utils/ai-engine.ts:
`text.split(/\s+/).filter(Boolean).length`. -/
def countWords (text : List Char) : Nat :=
  ((splitWS text []).filter (fun w => !w.isEmpty)).length

/-- JS `String.prototype.trim()` (ASCII whitespace). -/
def jsTrim (s : List Char) : List Char :=
  ((s.dropWhile isWS).reverse.dropWhile isWS).reverse

/-- Word-run counter used only in proofs: `cwState inTok s` counts the
maximal non-whitespace runs of `s`, where `inTok` records whether the
position directly before `s` is inside a run. -/
def cwState (inTok : Bool) : List Char → Nat
  | [] => 0
  | c :: rest =>
    if isWS c then cwState false rest
    else (if inTok then 0 else 1) + cwState true rest

end PromptP

namespace PromptP.Tpl

/-- A template variable (`TemplateVariable` in src/server/template-manager.ts).
The random string `id` from `generateId()` is modelled as a `Nat`. -/
structure TemplateVariable where
  id : Nat
  name : List Char
  description : List Char
  defaultValue : List Char
  required : Bool
deriving DecidableEq, Repr

/-- A prompt template (`PromptTemplate` in src/server/template-manager.ts),
restricted to the fields read by the embedded operations
(`applyTemplate`); the metadata fields (name, category, tags, timestamps,
usage counter, version chain) do not influence substitution and are
omitted. The source field `variables` is called `vars` here because
`variables` is a reserved word in Lean. -/
structure PromptTemplate where
  content : List Char
  vars : List TemplateVariable
deriving DecidableEq, Repr

/-- A supplied variable value (`TemplateVariableValue` in
src/server/template-manager.ts). -/
structure TemplateVariableValue where
  id : Nat
  value : List Char
deriving DecidableEq, Repr

/-- Raw scan for `\x7b\x7b([^\x7d]+)\x7d\x7d` tokens (the loop
`while ((match = variableRegex.exec(content)) !== null)` in
`extractVariablesFromContent`): at a `\x7b\x7b`, the candidate name is the
maximal run of non-`\x7d` characters; the token matches when the name is
nonempty and is followed by `\x7d\x7d`, and scanning resumes after the
token; on a failed attempt the scan advances one character, like the JS
regex engine. Returns the untrimmed captured names in order. -/
def tokenScan (s : List Char) : List (List Char) :=
  match s with
  | '{' :: '{' :: rest =>
    let name := rest.takeWhile (fun c => c ≠ '}')
    match hdw : rest.dropWhile (fun c => c ≠ '}') with
    | '}' :: '}' :: rem =>
      if name.isEmpty then tokenScan ('{' :: rest)
      else name :: tokenScan rem
    | _ => tokenScan ('{' :: rest)
  | _ :: rest => tokenScan rest
  | [] => []
termination_by s.length
decreasing_by
  · simp only [List.length_cons]; omega
  · have h2 : rest.length = (rest.takeWhile (fun c => c ≠ '}')).length +
        (rest.dropWhile (fun c => c ≠ '}')).length := by
      rw [← List.length_append, List.takeWhile_append_dropWhile]
    rw [hdw] at h2
    simp only [List.length_cons] at *
    omega
  · simp only [List.length_cons]; omega
  · simp only [List.length_cons]; omega

/-- First-occurrence deduplication (the `variableNames` `Set` in
`extractVariablesFromContent`): a name already seen is skipped. -/
def dedupNames (seen : List (List Char)) : List (List Char) → List (List Char)
  | [] => []
  | n :: rest =>
    if n ∈ seen then dedupNames seen rest
    else n :: dedupNames (n :: seen) rest

/-- `extractVariablesFromContent` from src/server/template-manager.ts:
collect the trimmed token names, first occurrence only, and build a
`TemplateVariable` for each (empty default value, required). Ids are
assigned sequentially (source: `generateId()`). -/
def extractVariablesFromContent (content : List Char) : List TemplateVariable :=
  (dedupNames [] ((tokenScan content).map jsTrim)).enum.map fun p =>
    { id := p.1
      name := p.2
      description := "Value for ".toList ++ p.2
      defaultValue := []
      required := true }

/-- `createTemplate` from src/server/template-manager.ts, restricted to the
substitution-relevant fields: the stored content plus the variables
extracted from it. -/
def createTemplate (content : List Char) : PromptTemplate :=
  { content := content, vars := extractVariablesFromContent content }

/-- JS `String.prototype.replace` with a global regex, on the domain
where that call is literal: when the pattern contains no regex
metacharacter and the replacement contains no `$`, `replace` substitutes
`rep` for every non-overlapping occurrence of the literal `pat`,
scanning left to right, and the replacement is not rescanned. (Outside
that domain — a metacharacter in an interpolated variable name, or a
`$`-pattern in a value — the source behaves differently; the amended
substitution claim therefore restricts names to `identChar` and values
to `literalChar`.) -/
def replaceAll (pat rep s : List Char) : List Char :=
  if h : pat = [] then s
  else
    match s with
    | [] => []
    | c :: rest =>
      if pat.isPrefixOf (c :: rest) then
        rep ++ replaceAll pat rep ((c :: rest).drop pat.length)
      else c :: replaceAll pat rep rest
termination_by s.length
decreasing_by
  · have : pat.length ≠ 0 := fun hl => h (List.eq_nil_of_length_eq_zero hl)
    simp only [List.length_drop, List.length_cons]
    omega
  · simp

/-- The `valueMap` of `applyTemplate`: a JS `Map` built by iterating
`valueMap.set(variable.id, variable.value)`, so a later entry for the same
id wins; `get` of an absent id is `none`. -/
def lookupValue (variableValues : List TemplateVariableValue) (id : Nat) :
    Option (List Char) :=
  variableValues.foldl (fun acc v => if v.id = id then some v.value else acc) none

/-- The `\x7b\x7bname\x7d\x7d` search pattern that `applyTemplate` builds with
`new RegExp` for one variable, as the literal string it denotes when the
name consists of word characters (no regex metacharacters). -/
def tokenOf (name : List Char) : List Char :=
  '{' :: '{' :: (name ++ ['}', '}'])

/-- The effective substitution value for one variable in `applyTemplate`:
`valueMap.get(variable.id) || variable.defaultValue` — the JS `||` falls
back to the default both when the id is absent and when the supplied value
is the empty string (empty strings are falsy). -/
def effValue (variableValues : List TemplateVariableValue)
    (v : TemplateVariable) : List Char :=
  match lookupValue variableValues v.id with
  | some w => if w = [] then v.defaultValue else w
  | none => v.defaultValue

/-- `applyTemplate` from src/server/template-manager.ts: starting from the
template content, replace each variable's token by its effective value, one
variable at a time. -/
def applyTemplate (template : PromptTemplate)
    (variableValues : List TemplateVariableValue) : List Char :=
  template.vars.foldl
    (fun result v =>
      replaceAll (tokenOf v.name) (effValue variableValues v) result)
    template.content

/-- A string still contains a `\x7b\x7b...\x7d\x7d` token iff the token scanner finds
one. -/
def hasTemplateToken (s : List Char) : Bool :=
  !(tokenScan s).isEmpty

/-- Supplying a value for every variable of the template (the hypothesis of
the substitution claim). -/
def suppliesAll (template : PromptTemplate)
    (variableValues : List TemplateVariableValue) : Prop :=
  ∀ v ∈ template.vars, ∃ e ∈ variableValues, e.id = v.id

instance (template : PromptTemplate) (vs : List TemplateVariableValue) :
    Decidable (suppliesAll template vs) := by
  unfold suppliesAll; infer_instance

/-- Concrete template for the substitution counterexample: content
`Hello \x7b\x7b n \x7d\x7d` (whitespace-padded variable token). -/
def cexTemplate : PromptTemplate :=
  createTemplate ("Hello ".toList ++ tokenOf " n ".toList)

/-- Concrete supplied values for the substitution counterexample. -/
def cexValues : List TemplateVariableValue :=
  [{ id := 0, value := "world".toList }]

/-- A character that is not a brace. -/
def braceFree (c : Char) : Bool :=
  c ≠ '{' && c ≠ '}'

/-- Characters allowed in a clean variable name: the word characters
`[A-Za-z0-9_]`. Such a name survives the `trim()` in
`extractVariablesFromContent` unchanged, and the search pattern
`applyTemplate` builds for it with `new RegExp` (the doubly escaped
braces around the interpolated name, flag `g`) contains no regex
metacharacter, so that pattern matches exactly the literal token
`\x7b\x7bname\x7d\x7d` — the domain on which the literal-string
`replaceAll` below is an exact model of the regex replace of the
source. -/
def identChar (c : Char) : Bool :=
  c.isAlphanum || c = '_'

/-- Characters allowed in a supplied replacement value: no braces (a
value containing brace characters could assemble new tokens) and no `$`
(in JS `String.replace` a `$` in the replacement string starts a
substitution pattern — `$&` for instance reinserts the matched token —
while a `$`-free replacement is inserted literally). -/
def literalChar (c : Char) : Bool :=
  braceFree c && c ≠ '$'

/-- A piece of template content: literal text or a `\x7b\x7bname\x7d\x7d`
variable token. -/
inductive Chunk where
  | txt (t : List Char)
  | var (n : List Char)
deriving DecidableEq, Repr

/-- Reassemble chunked content into the raw template string. -/
def assemble : List Chunk → List Char
  | [] => []
  | Chunk.txt t :: cs => t ++ assemble cs
  | Chunk.var n :: cs => tokenOf n ++ assemble cs

/-- Well-formedness of one chunk: literal text contains no braces; a
variable name is nonempty and consists of identifier characters. -/
def chunkOK : Chunk → Bool
  | Chunk.txt t => t.all braceFree
  | Chunk.var n => !n.isEmpty && n.all identChar

/-- The names of the variable chunks, in order. -/
def chunkNames : List Chunk → List (List Char)
  | [] => []
  | Chunk.txt _ :: cs => chunkNames cs
  | Chunk.var n :: cs => n :: chunkNames cs

/-- First-match lookup in an association list from variable name to
replacement text. -/
def lookupName (done : List (List Char × List Char)) (n : List Char) :
    Option (List Char) :=
  match done with
  | [] => none
  | (m, w) :: rest => if m = n then some w else lookupName rest n

/-- Apply a finished substitution to chunked content: a substituted
variable becomes its replacement text, an untouched one stays a token. -/
def substitute (done : List (List Char × List Char)) : List Chunk → List Char
  | [] => []
  | Chunk.txt t :: cs => t ++ substitute done cs
  | Chunk.var n :: cs => (lookupName done n).getD (tokenOf n) ++ substitute done cs

end PromptP.Tpl

namespace PromptP.Store

/-- User roles (`z.enum(["writer", "designer", "developer", "marketer"])`). -/
inductive Role where
  | writer
  | designer
  | developer
  | marketer
deriving DecidableEq, Repr

/-- Subscription plans (`"free" | "pro"`). -/
inductive Plan where
  | free
  | pro
deriving DecidableEq, Repr

/-- A JS `Date`, modelled by the observations the server makes of it: the
calendar components read by `isSameDay` (`getFullYear`, `getMonth`,
`getDate`) and the epoch milliseconds read by date comparisons
(`getTime`/`valueOf`). The relationship between the two views is never used
by the verified code paths and is left unconstrained. -/
structure JsDate where
  year : Int
  month : Nat
  day : Nat
  ms : Int
deriving DecidableEq, Repr

/-- `isSameDay` from the routes file: equality of year, month and day. -/
def isSameDay (date1 date2 : JsDate) : Bool :=
  date1.year = date2.year && date1.month = date2.month && date1.day = date2.day

/-- A user row (`User` of `@shared/schema`, as materialised by
`MemStorage.createUser`). `promptsUsedToday` folds the source's
`user.promptsUsedToday || 0` null-coalescing into a plain `Nat`. -/
structure User where
  id : Nat
  username : List Char
  password : List Char
  clerkId : Option (List Char)
  role : Option Role
  plan : Plan
  promptsUsedToday : Nat
  lastPromptDate : Option JsDate
  createdAt : JsDate
deriving DecidableEq, Repr

/-- A prompt row (`Prompt` of `@shared/schema`, as materialised by
`MemStorage.createPrompt`). -/
structure Prompt where
  id : Nat
  originalPrompt : List Char
  enhancedPrompt : List Char
  role : Option Role
  userId : Option Nat
  createdAt : JsDate
deriving DecidableEq, Repr

/-- Insert payload for `createUser` (`InsertUser`). -/
structure InsertUser where
  username : List Char
  password : List Char
  clerkId : Option (List Char)
  role : Option Role
  plan : Option Plan
deriving DecidableEq, Repr

/-- Insert payload for `createPrompt` (`InsertPrompt`). -/
structure InsertPrompt where
  userId : Option Nat
  originalPrompt : List Char
  enhancedPrompt : List Char
  role : Option Role
deriving DecidableEq, Repr

/-- A JS `Map<number, α>` as an association list in insertion order. -/
abbrev JsMap (α : Type) : Type := List (Nat × α)

/-- `Map.prototype.get`. -/
def mapGet {α : Type} (m : JsMap α) (k : Nat) : Option α :=
  (m.find? (fun e => e.1 = k)).map (fun e => e.2)

/-- `Map.prototype.set`: replace the entry with key `k` when present,
otherwise append a new entry. -/
def mapSet {α : Type} (m : JsMap α) (k : Nat) (v : α) : JsMap α :=
  if m.any (fun e => e.1 = k) then
    m.map (fun e => if e.1 = k then (k, v) else e)
  else m ++ [(k, v)]

/-- `Map.prototype.delete`. -/
def mapDelete {α : Type} (m : JsMap α) (k : Nat) : JsMap α :=
  m.filter (fun e => e.1 ≠ k)

/-- `Array.from(map.values())` (insertion order). -/
def mapValues {α : Type} (m : JsMap α) : List α :=
  m.map (fun e => e.2)

/-- The `MemStorage` class state from the storage module: two maps and the
two id counters. -/
structure MemStorage where
  users : JsMap User
  prompts : JsMap Prompt
  userIdCounter : Nat
  promptIdCounter : Nat
deriving DecidableEq, Repr

/-- The freshly constructed storage (`new MemStorage()`). -/
def MemStorage.init : MemStorage :=
  { users := [], prompts := [], userIdCounter := 1, promptIdCounter := 1 }

/-- `MemStorage.getUser`. -/
def getUser (s : MemStorage) (id : Nat) : Option User :=
  mapGet s.users id

/-- `MemStorage.getUserByUsername`. -/
def getUserByUsername (s : MemStorage) (username : List Char) : Option User :=
  (mapValues s.users).find? (fun u => u.username = username)

/-- `MemStorage.getUserByClerkId`. -/
def getUserByClerkId (s : MemStorage) (clerkId : List Char) : Option User :=
  (mapValues s.users).find? (fun u => u.clerkId = some clerkId)

/-- `MemStorage.createUser` at time `now`: allocate the next id, build the
row with the source's defaulting (`plan || "free"`, counter `0`,
`lastPromptDate = now`) and insert it. Returns the new state and the row. -/
def createUser (s : MemStorage) (insertUser : InsertUser) (now : JsDate) :
    MemStorage × User :=
  let id := s.userIdCounter
  let user : User :=
    { id := id
      username := insertUser.username
      password := insertUser.password
      clerkId := insertUser.clerkId
      role := insertUser.role
      plan := insertUser.plan.getD Plan.free
      promptsUsedToday := 0
      lastPromptDate := some now
      createdAt := now }
  ({ s with users := mapSet s.users id user, userIdCounter := id + 1 }, user)

/-- `MemStorage.updateUserRole`. The source throws when the user is
missing; an exception leaves the map untouched, modelled as the unchanged
state. -/
def updateUserRole (s : MemStorage) (userId : Nat) (role : Role) : MemStorage :=
  match getUser s userId with
  | none => s
  | some user =>
    let updatedUser := { user with role := some role }
    { s with users := mapSet s.users userId updatedUser }

/-- `MemStorage.resetUserPromptUsage` at time `now`: counter back to `0`,
`lastPromptDate = new Date()`. Missing user modelled as for
`updateUserRole`. -/
def resetUserPromptUsage (s : MemStorage) (userId : Nat) (now : JsDate) :
    MemStorage :=
  match getUser s userId with
  | none => s
  | some user =>
    let updatedUser := { user with promptsUsedToday := 0,
                                   lastPromptDate := some now }
    { s with users := mapSet s.users userId updatedUser }

/-- `MemStorage.incrementUserPromptUsage` at time `now`. -/
def incrementUserPromptUsage (s : MemStorage) (userId : Nat) (now : JsDate) :
    MemStorage :=
  match getUser s userId with
  | none => s
  | some user =>
    let updatedUser := { user with promptsUsedToday := user.promptsUsedToday + 1,
                                   lastPromptDate := some now }
    { s with users := mapSet s.users userId updatedUser }

/-- `MemStorage.getPromptById`. -/
def getPromptById (s : MemStorage) (id : Nat) : Option Prompt :=
  mapGet s.prompts id

/-- Milliseconds per day, for the `cutoffDate.setDate(getDate() - limitDays)`
arithmetic (modelled as exact-day epoch arithmetic). -/
def msPerDay : Int := 86400000

/-- `MemStorage.getPromptsByUserId`: the user's prompts, newest first
(`Array.sort` with comparator `dateB - dateA`), optionally filtered to the
last `limitDays` days. A `limitDays` of `0` is falsy in `if (limitDays)`
and applies no filter, like `undefined`. -/
def getPromptsByUserId (s : MemStorage) (userId : Nat) (limitDays : Option Nat)
    (now : JsDate) : List Prompt :=
  let userPrompts :=
    ((mapValues s.prompts).filter (fun p => p.userId = some userId)).mergeSort
      (fun a b => b.createdAt.ms ≤ a.createdAt.ms)
  match limitDays with
  | none => userPrompts
  | some d =>
    if d = 0 then userPrompts
    else userPrompts.filter (fun p => now.ms - d * msPerDay ≤ p.createdAt.ms)

/-- `MemStorage.createPrompt` at time `now`. -/
def createPrompt (s : MemStorage) (insertPrompt : InsertPrompt) (now : JsDate) :
    MemStorage × Prompt :=
  let id := s.promptIdCounter
  let prompt : Prompt :=
    { id := id
      originalPrompt := insertPrompt.originalPrompt
      enhancedPrompt := insertPrompt.enhancedPrompt
      role := insertPrompt.role
      userId := insertPrompt.userId
      createdAt := now }
  ({ s with prompts := mapSet s.prompts id prompt, promptIdCounter := id + 1 },
   prompt)

/-- `MemStorage.deletePrompt`. -/
def deletePrompt (s : MemStorage) (id : Nat) : MemStorage :=
  { s with prompts := mapDelete s.prompts id }

/-- `MemStorage.getUserUsageStats` (read-only; only the two counts are
modelled, the role-breakdown record is irrelevant to the claims). -/
def getUserUsageStats (s : MemStorage) (userId : Nat) (now : JsDate) :
    Nat × Nat :=
  let userPrompts := (mapValues s.prompts).filter (fun p => p.userId = some userId)
  (userPrompts.length,
   (userPrompts.filter (fun p => now.ms - 7 * msPerDay ≤ p.createdAt.ms)).length)

/-- The storage interface operations, for quantifying over "every storage
operation". Read-only operations do not change the state. -/
inductive StorageOp where
  | getUser (id : Nat)
  | getUserByUsername (username : List Char)
  | getUserByClerkId (clerkId : List Char)
  | createUser (u : InsertUser)
  | updateUserRole (userId : Nat) (role : Role)
  | resetUserPromptUsage (userId : Nat)
  | incrementUserPromptUsage (userId : Nat)
  | getPromptById (id : Nat)
  | getPromptsByUserId (userId : Nat) (limitDays : Option Nat)
  | createPrompt (p : InsertPrompt)
  | deletePrompt (id : Nat)
  | getUserUsageStats (userId : Nat)
deriving DecidableEq, Repr

/-- State effect of each storage operation, performed at time `now`. -/
def applyOp (s : MemStorage) (now : JsDate) : StorageOp → MemStorage
  | .getUser _ => s
  | .getUserByUsername _ => s
  | .getUserByClerkId _ => s
  | .createUser u => (createUser s u now).1
  | .updateUserRole userId role => updateUserRole s userId role
  | .resetUserPromptUsage userId => resetUserPromptUsage s userId now
  | .incrementUserPromptUsage userId => incrementUserPromptUsage s userId now
  | .getPromptById _ => s
  | .getPromptsByUserId _ _ => s
  | .createPrompt p => (createPrompt s p now).1
  | .deletePrompt id => deletePrompt s id
  | .getUserUsageStats _ => s

/-- Whether an operation is the prompt deletion operation. -/
def StorageOp.isDeletePrompt : StorageOp → Bool
  | .deletePrompt _ => true
  | _ => false

/-- Well-formedness of the stored maps, true of every state reachable from
`MemStorage.init`: each row records the key it is stored under, keys are
unique (a `Map` has at most one entry per key), and the id counters are
strictly above every allocated key. -/
def WFStorage (s : MemStorage) : Prop :=
  (∀ e ∈ s.users, e.2.id = e.1 ∧ e.1 < s.userIdCounter) ∧
    (s.users.map Prod.fst).Nodup ∧
    (∀ e ∈ s.prompts, e.2.id = e.1 ∧ e.1 < s.promptIdCounter) ∧
    (s.prompts.map Prod.fst).Nodup

instance (s : MemStorage) : Decidable (WFStorage s) := by
  unfold WFStorage; infer_instance

/-- `FREE_TIER_DAILY_LIMIT` from the routes file. -/
def FREE_TIER_DAILY_LIMIT : Nat := 10

/-- The requests of the user/prompt/stats routes of `registerRoutes`
(bodies already validated by the zod schemas; a schema failure yields a 400
before any handler logic runs and is not modelled further). -/
inductive Request where
  | usersClerk (clerkId : List Char) (email : List Char)
  | usersOnboarding (userId : List Char) (role : Role)
  | usersMe
  | promptsEnhance (originalPrompt : List Char) (enhancedPrompt : List Char)
      (role : Role)
  | promptsSave (originalPrompt : List Char) (enhancedPrompt : List Char)
      (role : Role)
  | promptsHistory
  | promptsGet (id : Nat)
  | promptsDelete (id : Nat)
  | statsUsage
deriving DecidableEq, Repr

/-- The observable response parts the claims need: the HTTP status and, for
the enhance route, the `saved` flag of the JSON body. -/
structure Response where
  status : Nat
  saved : Option Bool := none
deriving DecidableEq, Repr

/-- Success path shared by the enhance route after the quota gate: increment
usage, create the prompt record, answer 200 with `saved: true`. -/
def enhanceSucceed (s : MemStorage) (user : User)
    (originalPrompt enhancedPrompt : List Char) (role : Role) (now : JsDate) :
    Response × MemStorage :=
  let s1 := incrementUserPromptUsage s user.id now
  let s2 := (createPrompt s1
    { userId := some user.id
      originalPrompt := originalPrompt
      enhancedPrompt := enhancedPrompt
      role := some role } now).1
  ({ status := 200, saved := some true }, s2)

/-- The route handlers of `registerRoutes` (user, prompt and stats routes),
as a function of the storage state, the optional `x-clerk-user-id` header,
and the request time. Only the status/saved observations and the state
effect are modelled. -/
def handle (s : MemStorage) (auth : Option (List Char)) (now : JsDate) :
    Request → Response × MemStorage
  | .usersClerk clerkId email =>
    match getUserByClerkId s clerkId with
    | some _ => ({ status := 200 }, s)
    | none =>
      ({ status := 200 },
       (createUser s
         { username := email, password := [], clerkId := some clerkId,
           role := none, plan := some Plan.free } now).1)
  | .usersOnboarding userId role =>
    match getUserByClerkId s userId with
    | none => ({ status := 404 }, s)
    | some user => ({ status := 200 }, updateUserRole s user.id role)
  | .usersMe =>
    match auth with
    | none => ({ status := 401 }, s)
    | some clerkId =>
      match getUserByClerkId s clerkId with
      | none => ({ status := 404 }, s)
      | some _ => ({ status := 200 }, s)
  | .promptsEnhance originalPrompt enhancedPrompt role =>
    match auth with
    | none => ({ status := 200, saved := some false }, s)
    | some clerkId =>
      match getUserByClerkId s clerkId with
      | none => ({ status := 404 }, s)
      | some user =>
        if user.plan = Plan.free then
          match user.lastPromptDate with
          | some lastPromptDate =>
            if isSameDay now lastPromptDate then
              if FREE_TIER_DAILY_LIMIT ≤ user.promptsUsedToday then
                ({ status := 402 }, s)
              else enhanceSucceed s user originalPrompt enhancedPrompt role now
            else
              enhanceSucceed (resetUserPromptUsage s user.id now) user
                originalPrompt enhancedPrompt role now
          | none =>
            enhanceSucceed (resetUserPromptUsage s user.id now) user
              originalPrompt enhancedPrompt role now
        else enhanceSucceed s user originalPrompt enhancedPrompt role now
  | .promptsSave originalPrompt enhancedPrompt role =>
    match auth with
    | none => ({ status := 401 }, s)
    | some clerkId =>
      match getUserByClerkId s clerkId with
      | none => ({ status := 404 }, s)
      | some user =>
        ({ status := 200 },
         (createPrompt s
           { userId := some user.id
             originalPrompt := originalPrompt
             enhancedPrompt := enhancedPrompt
             role := some role } now).1)
  | .promptsHistory =>
    match auth with
    | none => ({ status := 401 }, s)
    | some clerkId =>
      match getUserByClerkId s clerkId with
      | none => ({ status := 404 }, s)
      | some _ => ({ status := 200 }, s)
  | .promptsGet id =>
    match auth with
    | none => ({ status := 401 }, s)
    | some clerkId =>
      match getUserByClerkId s clerkId with
      | none => ({ status := 404 }, s)
      | some user =>
        match getPromptById s id with
        | none => ({ status := 404 }, s)
        | some prompt =>
          if prompt.userId = some user.id then ({ status := 200 }, s)
          else ({ status := 404 }, s)
  | .promptsDelete id =>
    match auth with
    | none => ({ status := 401 }, s)
    | some clerkId =>
      match getUserByClerkId s clerkId with
      | none => ({ status := 404 }, s)
      | some user =>
        match getPromptById s id with
        | none => ({ status := 404 }, s)
        | some prompt =>
          if prompt.userId = some user.id then
            ({ status := 200 }, deletePrompt s id)
          else ({ status := 404 }, s)
  | .statsUsage =>
    match auth with
    | none => ({ status := 401 }, s)
    | some clerkId =>
      match getUserByClerkId s clerkId with
      | none => ({ status := 404 }, s)
      | some _ => ({ status := 200 }, s)

/-- The routes whose handlers gate on the `x-clerk-user-id` header with a
401 (all modelled routes except the two user-provisioning routes, which
read no header, and the enhance route, which explicitly allows anonymous
use). -/
def requiresAuth : Request → Bool
  | .usersMe => true
  | .promptsSave _ _ _ => true
  | .promptsHistory => true
  | .promptsGet _ => true
  | .promptsDelete _ => true
  | .statsUsage => true
  | .usersClerk _ _ => false
  | .usersOnboarding _ _ => false
  | .promptsEnhance _ _ _ => false

/-- Sample date used by concrete instantiations: 2025-01-15 (month is the
0-based `getMonth()` value). -/
def dayA : JsDate := { year := 2025, month := 0, day := 15, ms := 1736899200000 }

/-- A later moment on the same calendar day as `dayA`. -/
def dayASame : JsDate := { year := 2025, month := 0, day := 15, ms := 1736930000000 }

/-- The following calendar day, 2025-01-16. -/
def dayB : JsDate := { year := 2025, month := 0, day := 16, ms := 1736985600000 }

/-- Sample free-tier user who has exhausted the daily quota on `dayA`. -/
def sampleFreeUser : User :=
  { id := 1
    username := "alice@example.com".toList
    password := []
    clerkId := some "clerk_alice".toList
    role := some Role.writer
    plan := Plan.free
    promptsUsedToday := 10
    lastPromptDate := some dayA
    createdAt := dayA }

/-- Sample stored prompt owned by `sampleFreeUser`. -/
def samplePrompt : Prompt :=
  { id := 1
    originalPrompt := "write a poem".toList
    enhancedPrompt := "write a poem with structure".toList
    role := some Role.writer
    userId := some 1
    createdAt := dayA }

/-- Sample storage state holding `sampleFreeUser` and `samplePrompt`. -/
def sampleState : MemStorage :=
  { users := [(1, sampleFreeUser)]
    prompts := [(1, samplePrompt)]
    userIdCounter := 2
    promptIdCounter := 2 }

end PromptP.Store

namespace PromptP.Rx

/-- Character class of the JS `\w` (word character), used by `\b`. -/
def isWordChar (c : Char) : Bool :=
  c.isAlphanum || c = '_'

/-- Character class of the JS `\.` dot (any character except a line
terminator; ASCII subset). -/
def isNonNL (c : Char) : Bool :=
  !(c = '\n' || c = '\r')

/-- Syntax of the regexes appearing in the analyzed sources. Repetition is
only ever applied to single character classes there, so `rep` quantifies a
class with a lower bound and an optional upper bound (`none` = unbounded):
`cls p` is one char of class `p`; `rep p lo hi` is `p{lo,hi}` (greedy);
`lit cs` a literal string; `la neg r` a lookahead `(?=r)`/`(?!r)`;
`lbn p` the negative lookbehind `(?<!p)` on a single-char class; `wb` is
`\b`, `bos`/`eos` are `^`/`$` (no `m` flag in the relevant patterns). -/
inductive Re where
  | eps
  | lit (cs : List Char)
  | cls (p : Char → Bool)
  | rep (p : Char → Bool) (lo : Nat) (hi : Option Nat)
  | cat (a b : Re)
  | alt (a b : Re)
  | opt (a : Re)
  | wb
  | bos
  | eos
  | la (neg : Bool) (a : Re)
  | lbn (p : Char → Bool)

/-- Sequencing of a pattern list. -/
def Re.seq (rs : List Re) : Re :=
  rs.foldr Re.cat Re.eps

/-- Ordered alternation of a nonempty pattern list (JS tries alternatives
left to right). -/
def Re.first (r : Re) (rs : List Re) : Re :=
  rs.foldl Re.alt r

/-- Word/non-word test at a position boundary (`none` = outside the input,
which counts as non-word). -/
def atWord : Option Char → Bool
  | some c => isWordChar c
  | none => false

/-- The `\b` condition: the word-ness differs on the two sides of the
position given by the reversed left context and the right context. -/
def isBoundary (l r : List Char) : Bool :=
  atWord l.head? != atWord r.head?

/-- Backtracking matcher. `mtch re l r` matches `re` at the position
between `l` (the consumed input, reversed) and `r`; it returns the
resulting `(l, r)` positions of every way to match, in the priority order
of the JS engine (greedy repetition longest first, left alternative first,
`opt` with the optional part first). -/
def mtch : Re → List Char → List Char → List (List Char × List Char)
  | .eps, l, r => [(l, r)]
  | .lit cs, l, r =>
    if cs.isPrefixOf r then [(cs.reverse ++ l, r.drop cs.length)] else []
  | .cls p, l, r =>
    match r with
    | [] => []
    | c :: r2 => if p c then [(c :: l, r2)] else []
  | .rep p lo hi, l, r =>
    let avail := (r.takeWhile p).length
    let cap := match hi with
      | some h => min avail h
      | none => avail
    ((List.range (cap + 1)).reverse.filter (fun k => lo ≤ k)).map
      (fun k => ((r.take k).reverse ++ l, r.drop k))
  | .cat a b, l, r => (mtch a l r).flatMap (fun q => mtch b q.1 q.2)
  | .alt a b, l, r => mtch a l r ++ mtch b l r
  | .opt a, l, r => mtch a l r ++ [(l, r)]
  | .wb, l, r => if isBoundary l r then [(l, r)] else []
  | .bos, l, r => if l.isEmpty then [(l, r)] else []
  | .eos, l, r => if r.isEmpty then [(l, r)] else []
  | .la neg a, l, r =>
    if (if neg then (mtch a l r).isEmpty else !(mtch a l r).isEmpty)
    then [(l, r)] else []
  | .lbn p, l, r =>
    match l with
    | [] => [(l, r)]
    | c :: _ => if p c then [] else [(l, r)]

/-- Every matcher result consumes from the right context only: the
remainder is no longer than the input. -/
theorem mtch_length_le (re : Re) (l r : List Char) :
    ∀ q ∈ mtch re l r, q.2.length ≤ r.length := by
  induction re generalizing l r with
  | eps =>
    intro q hq
    simp only [mtch, List.mem_singleton] at hq
    simp [hq]
  | lit cs =>
    intro q hq
    simp only [mtch] at hq
    split at hq
    · simp only [List.mem_singleton] at hq
      rw [hq]
      simp only [List.length_drop]
      omega
    · simp at hq
  | cls p =>
    intro q hq
    rcases r with _ | ⟨c, r2⟩
    · simp [mtch] at hq
    · simp only [mtch] at hq
      split at hq
      · simp only [List.mem_singleton] at hq
        simp [hq]
      · simp at hq
  | rep p lo hi =>
    intro q hq
    simp only [mtch, List.mem_map] at hq
    obtain ⟨k, -, hk⟩ := hq
    rw [← hk]
    simp only [List.length_drop]
    omega
  | cat a b iha ihb =>
    intro q hq
    simp only [mtch, List.mem_flatMap] at hq
    obtain ⟨m, hm, hq⟩ := hq
    exact le_trans (ihb m.1 m.2 q hq) (iha l r m hm)
  | alt a b iha ihb =>
    intro q hq
    simp only [mtch, List.mem_append] at hq
    rcases hq with hq | hq
    · exact iha l r q hq
    · exact ihb l r q hq
  | opt a iha =>
    intro q hq
    simp only [mtch, List.mem_append, List.mem_singleton] at hq
    rcases hq with hq | hq
    · exact iha l r q hq
    · simp [hq]
  | wb =>
    intro q hq
    simp only [mtch] at hq
    split at hq
    · simp only [List.mem_singleton] at hq
      simp [hq]
    · simp at hq
  | bos =>
    intro q hq
    simp only [mtch] at hq
    split at hq
    · simp only [List.mem_singleton] at hq
      simp [hq]
    · simp at hq
  | eos =>
    intro q hq
    simp only [mtch] at hq
    split at hq
    · simp only [List.mem_singleton] at hq
      simp [hq]
    · simp at hq
  | la neg a iha =>
    intro q hq
    simp only [mtch] at hq
    by_cases hc : (if neg then (mtch a l r).isEmpty
        else !(mtch a l r).isEmpty) = true
    · rw [if_pos hc] at hq
      simp only [List.mem_singleton] at hq
      simp [hq]
    · rw [if_neg hc] at hq
      simp at hq
  | lbn p =>
    intro q hq
    rcases l with _ | ⟨c, l2⟩
    · simp only [mtch, List.mem_singleton] at hq
      simp [hq]
    · simp only [mtch] at hq
      split at hq
      · simp at hq
      · simp only [List.mem_singleton] at hq
        simp [hq]

/-- Number of matches found by the JS global scanning loop (`String.match`
with `g`, or the `exec` loops of the analyzer): try the pattern at each
position from left to right; on a match, resume after its end (or one
character further for an empty match). `l` is the consumed input,
reversed. -/
def countFrom (re : Re) (l r : List Char) : Nat :=
  match r with
  | [] => if (mtch re l []).isEmpty then 0 else 1
  | c :: rest =>
    match hm : mtch re l (c :: rest) with
    | [] => countFrom re (c :: l) rest
    | q :: _ =>
      if q.2.length = rest.length + 1 then 1 + countFrom re (c :: l) rest
      else 1 + countFrom re q.1 q.2
termination_by r.length
decreasing_by
  · simp
  · simp
  · rename_i hne
    have hq : q ∈ mtch re l (c :: rest) := by rw [hm]; exact List.mem_cons_self q _
    have := mtch_length_le re l (c :: rest) q hq
    simp only [List.length_cons] at *
    omega

/-- Whether the pattern matches anywhere (JS `RegExp.prototype.test`). -/
def testFrom (re : Re) (l r : List Char) : Bool :=
  match r with
  | [] => !(mtch re l []).isEmpty
  | c :: rest => !(mtch re l (c :: rest)).isEmpty || testFrom re (c :: l) rest

/-- A transcribed source pattern: the regex and whether it carries the `i`
flag (modelled by case-folding the input; the `i`-flagged literals below
are written in lower case). -/
structure Pat where
  re : Re
  ci : Bool

/-- Match count of a pattern over a text (`(text.match(pattern) || []).length`
for the `g`-flagged source patterns). -/
def countP (text : List Char) (p : Pat) : Nat :=
  countFrom p.re [] (if p.ci then PromptP.foldCase text else text)

/-- Match test of a pattern over a text (`pattern.test(text)`). -/
def testP (text : List Char) (p : Pat) : Bool :=
  testFrom p.re [] (if p.ci then PromptP.foldCase text else text)

/-- Alternation of literal words. -/
def wordAlt (w : String) (ws : List String) : Re :=
  Re.first (Re.lit w.toList) (ws.map (fun x => Re.lit x.toList))

/-- The forward search of `RegExpBuiltinExec`: starting at the position
between `l` (the consumed input, reversed) and `r`, try the pattern at
each position left to right and return the remainder after the engine's
preferred match at the first matching position (`none` when no position
from here on matches). -/
def findEnd (re : Re) (l r : List Char) : Option (List Char) :=
  match r with
  | [] =>
    match mtch re l [] with
    | [] => none
    | q :: _ => some q.2
  | c :: rest =>
    match mtch re l (c :: rest) with
    | [] => findEnd re (c :: l) rest
    | q :: _ => some q.2

end PromptP.Rx

namespace PromptP.Quality

open PromptP.Rx

/-!
Embedding of src/server/prompt-quality-analyzer.ts.

The `qualityPatterns` table is transcribed pattern by pattern below (the
`tone` and `technical` groups are omitted: no embedded function reads
them). The lazy `.*?` inside the negative lookahead of `context.missing`
is transcribed as a greedy repetition — inside a lookahead only the
existence of a match matters.

JS statefulness note: the source keeps the compiled regexes in a
module-level object. The only regexes that are both `g`-flagged and
consumed through `test()` — so that `lastIndex` persists between calls —
are the three `completeness` patterns (`goals`, `constraints`,
`audience`), each tested three times per analysis (in `identifyIssues`,
`identifyStrengths` and `calculateOverallScore`). Every other use is
state-free: the `exec` loops always run to exhaustion and leave
`lastIndex = 0`, `String.match` with `g` resets `lastIndex` to 0 before
and after scanning, `matchAll` clones the regex, and the `context`
patterns carry no `g` flag. The functions below therefore come in two
forms: the plain ones evaluate every pattern from position 0 (fresh
state), and the `St` pipeline at the end of this namespace threads the
three persistent `lastIndex` slots through the phases exactly as the
source mutates them; `analyzePromptQualitySt` is the faithful model of a
call, of which `analyzePromptQuality` is the fresh-state projection of
the state-free parts.
-/

/-- `clarity.vague` pattern 1: `\b(something|somehow|thing|stuff|etc\.?)\b` (gi). -/
def vague1 : Pat :=
  { re := Re.seq [Re.wb,
      (wordAlt "something" ["somehow", "thing", "stuff"]).alt
        (Re.seq [Re.lit "etc".toList, Re.opt (Re.lit ".".toList)]),
      Re.wb]
    ci := true }

/-- `clarity.vague` pattern 2:
`\b(good|nice|great|better|best|awesome|amazing)\b(?! practice)` (gi). -/
def vague2 : Pat :=
  { re := Re.seq [Re.wb,
      wordAlt "good" ["nice", "great", "better", "best", "awesome", "amazing"],
      Re.wb, Re.la true (Re.lit " practice".toList)]
    ci := true }

/-- `clarity.vague` pattern 3:
`\b(many|multiple|various|several|few|some)\b(?! of)` (gi). -/
def vague3 : Pat :=
  { re := Re.seq [Re.wb,
      wordAlt "many" ["multiple", "various", "several", "few", "some"],
      Re.wb, Re.la true (Re.lit " of".toList)]
    ci := true }

/-- `clarity.ambiguous` pattern 1:
`\b(it|they|them|those|these|this|that)\b(?! is| are| were| was)` (gi). -/
def ambiguous1 : Pat :=
  { re := Re.seq [Re.wb,
      wordAlt "it" ["they", "them", "those", "these", "this", "that"],
      Re.wb,
      Re.la true (wordAlt " is" [" are", " were", " was"])]
    ci := true }

/-- `clarity.ambiguous` pattern 2:
`\b(he|she|his|her|their|its)\b(?! is| are| were| was)` (gi). -/
def ambiguous2 : Pat :=
  { re := Re.seq [Re.wb,
      wordAlt "he" ["she", "his", "her", "their", "its"],
      Re.wb,
      Re.la true (wordAlt " is" [" are", " were", " was"])]
    ci := true }

/-- `specificity.lacking` pattern 1:
`(?<!\d)\b(large|small|big|tiny|huge|enormous)\b` (gi). -/
def lacking1 : Pat :=
  { re := Re.seq [Re.lbn Char.isDigit, Re.wb,
      wordAlt "large" ["small", "big", "tiny", "huge", "enormous"], Re.wb]
    ci := true }

/-- `specificity.lacking` pattern 2:
`\b(quickly|slowly|fast|rapid|soon|recent)\b` (gi). -/
def lacking2 : Pat :=
  { re := Re.seq [Re.wb,
      wordAlt "quickly" ["slowly", "fast", "rapid", "soon", "recent"], Re.wb]
    ci := true }

/-- `specificity.lacking` pattern 3:
`\b(often|sometimes|frequently|occasionally|rarely)\b` (gi). -/
def lacking3 : Pat :=
  { re := Re.seq [Re.wb,
      wordAlt "often" ["sometimes", "frequently", "occasionally", "rarely"],
      Re.wb]
    ci := true }

/-- `specificity.measures` pattern 1:
`\d+\s*(%|percent|px|em|rem|seconds|minutes|hours|days|weeks|months|years)` (gi). -/
def measures1 : Pat :=
  { re := Re.seq [Re.rep Char.isDigit 1 none, Re.rep PromptP.isWS 0 none,
      wordAlt "%" ["percent", "px", "em", "rem", "seconds", "minutes", "hours",
        "days", "weeks", "months", "years"]]
    ci := true }

/-- `specificity.measures` pattern 2:
`\$\d+|[₿£€¥]\d+|\d+\s+(dollars|euros|pounds|yen)` (gi). -/
def measures2 : Pat :=
  { re := Re.first
      (Re.seq [Re.lit "$".toList, Re.rep Char.isDigit 1 none])
      [Re.seq [Re.cls (fun c => c = '₿' || c = '£' || c = '€' || c = '¥'),
         Re.rep Char.isDigit 1 none],
       Re.seq [Re.rep Char.isDigit 1 none, Re.rep PromptP.isWS 1 none,
         wordAlt "dollars" ["euros", "pounds", "yen"]]]
    ci := true }

/-- `specificity.measures` pattern 3: `\b\d+\s*(kb|mb|gb|tb)\b` (gi). -/
def measures3 : Pat :=
  { re := Re.seq [Re.wb, Re.rep Char.isDigit 1 none, Re.rep PromptP.isWS 0 none,
      wordAlt "kb" ["mb", "gb", "tb"], Re.wb]
    ci := true }

/-- The context keyword group shared by the `context.missing` lookahead. -/
def contextWords : Re :=
  wordAlt "for" ["to use in", "context", "background", "situation", "scenario",
    "setting", "environment"]

/-- `context.missing`:
`^(?!.*?\b(for|to use in|context|background|situation|scenario|setting|environment)\b).{0,50}$` (i). -/
def contextMissing1 : Pat :=
  { re := Re.seq [Re.bos,
      Re.la true (Re.seq [Re.rep isNonNL 0 none, Re.wb, contextWords, Re.wb]),
      Re.rep isNonNL 0 (some 50), Re.eos]
    ci := true }

/-- `context.defined` pattern 1: `\b(for|to use in)\s[^.]{5,50}(?=\.|$)` (i). -/
def defined1 : Pat :=
  { re := Re.seq [Re.wb, wordAlt "for" ["to use in"], Re.cls PromptP.isWS,
      Re.rep (fun c => c ≠ '.') 5 (some 50),
      Re.la false (Re.alt (Re.lit ".".toList) Re.eos)]
    ci := true }

/-- `context.defined` pattern 2:
`\b(context|background|situation|scenario)\s*:\s*[^.]{5,100}(?=\.|$)` (i). -/
def defined2 : Pat :=
  { re := Re.seq [Re.wb,
      wordAlt "context" ["background", "situation", "scenario"],
      Re.rep PromptP.isWS 0 none, Re.lit ":".toList, Re.rep PromptP.isWS 0 none,
      Re.rep (fun c => c ≠ '.') 5 (some 100),
      Re.la false (Re.alt (Re.lit ".".toList) Re.eos)]
    ci := true }

/-- `structure.sections` pattern 1:
`\b(section|part|chapter|segment|module|component|phase|step)\s*\d+\b` (gi). -/
def sections1 : Pat :=
  { re := Re.seq [Re.wb,
      wordAlt "section" ["part", "chapter", "segment", "module", "component",
        "phase", "step"],
      Re.rep PromptP.isWS 0 none, Re.rep Char.isDigit 1 none, Re.wb]
    ci := true }

/-- `structure.sections` pattern 2: `\b(\d+)\.\s+\w+` (gm; no `i`). -/
def sections2 : Pat :=
  { re := Re.seq [Re.wb, Re.rep Char.isDigit 1 none, Re.lit ".".toList,
      Re.rep PromptP.isWS 1 none, Re.rep isWordChar 1 none]
    ci := false }

/-- `structure.sections` pattern 3:
`\b(firstly|secondly|thirdly|finally|subsequently|moreover|furthermore)\b` (gi). -/
def sections3 : Pat :=
  { re := Re.seq [Re.wb,
      wordAlt "firstly" ["secondly", "thirdly", "finally", "subsequently",
        "moreover", "furthermore"],
      Re.wb]
    ci := true }

/-- `structure.formatting` pattern 1: `-\s+\w+` (gm). -/
def formatting1 : Pat :=
  { re := Re.seq [Re.lit "-".toList, Re.rep PromptP.isWS 1 none,
      Re.rep isWordChar 1 none]
    ci := false }

/-- `structure.formatting` pattern 2: `\*\s+\w+` (gm). -/
def formatting2 : Pat :=
  { re := Re.seq [Re.lit "*".toList, Re.rep PromptP.isWS 1 none,
      Re.rep isWordChar 1 none]
    ci := false }

/-- `structure.formatting` pattern 3: `\d+\.\s+\w+` (gm). -/
def formatting3 : Pat :=
  { re := Re.seq [Re.rep Char.isDigit 1 none, Re.lit ".".toList,
      Re.rep PromptP.isWS 1 none, Re.rep isWordChar 1 none]
    ci := false }

/-- `completeness.goals`:
`\b(goal|objective|aim|purpose|target|intention|outcome)\b` (gi). -/
def goals1 : Pat :=
  { re := Re.seq [Re.wb,
      wordAlt "goal" ["objective", "aim", "purpose", "target", "intention",
        "outcome"],
      Re.wb]
    ci := true }

/-- `completeness.constraints`:
`\b(constraint|limitation|restriction|boundary|requirement|must not|should not|avoid)\b` (gi). -/
def constraints1 : Pat :=
  { re := Re.seq [Re.wb,
      wordAlt "constraint" ["limitation", "restriction", "boundary",
        "requirement", "must not", "should not", "avoid"],
      Re.wb]
    ci := true }

/-- `completeness.audience`:
`\b(audience|reader|viewer|user|customer|client|target market|demographic)\b` (gi). -/
def audience1 : Pat :=
  { re := Re.seq [Re.wb,
      wordAlt "audience" ["reader", "viewer", "user", "customer", "client",
        "target market", "demographic"],
      Re.wb]
    ci := true }

/-- `qualityPatterns.clarity.vague`. -/
def clarityVague : List Pat := [vague1, vague2, vague3]

/-- `qualityPatterns.clarity.ambiguous`. -/
def clarityAmbiguous : List Pat := [ambiguous1, ambiguous2]

/-- `qualityPatterns.specificity.lacking`. -/
def specificityLacking : List Pat := [lacking1, lacking2, lacking3]

/-- `qualityPatterns.specificity.measures`. -/
def specificityMeasures : List Pat := [measures1, measures2, measures3]

/-- `qualityPatterns.context.missing`. -/
def contextMissing : List Pat := [contextMissing1]

/-- `qualityPatterns.context.defined`. -/
def contextDefined : List Pat := [defined1, defined2]

/-- `qualityPatterns.structure.sections`. -/
def structureSections : List Pat := [sections1, sections2, sections3]

/-- `qualityPatterns.structure.formatting`. -/
def structureFormatting : List Pat := [formatting1, formatting2, formatting3]

/-- `qualityPatterns.completeness.goals`. -/
def completenessGoals : List Pat := [goals1]

/-- `qualityPatterns.completeness.constraints`. -/
def completenessConstraints : List Pat := [constraints1]

/-- `qualityPatterns.completeness.audience`. -/
def completenessAudience : List Pat := [audience1]

/-- `calculateAspectScore` from the analyzer: total match count over the
given patterns; positive aspects score `min(100, matches * 20)`, negative
ones `max(0, 100 - matches * 20)`. -/
def calculateAspectScore (text : List Char) (pats : List Pat)
    (positive : Bool) : ℚ :=
  let total : Nat := (pats.map (countP text)).sum
  if positive then min 100 ((total : ℚ) * 20)
  else max 0 (100 - (total : ℚ) * 20)

/-- The `clarity` aspect of `calculateOverallScore`. -/
def clarityScore (text : List Char) : ℚ :=
  calculateAspectScore text (clarityVague ++ clarityAmbiguous) false

/-- The `specificity` aspect of `calculateOverallScore`. -/
def specificityScore (text : List Char) : ℚ :=
  calculateAspectScore text specificityLacking false * 0.4 +
    calculateAspectScore text specificityMeasures true * 0.6

/-- `hasContext` of `calculateOverallScore`
(`qualityPatterns.context.defined.some(pattern => pattern.test(text))`). -/
def hasContext (text : List Char) : Bool :=
  contextDefined.any (testP text)

/-- The `context` aspect of `calculateOverallScore`. -/
def contextScore (text : List Char) : ℚ :=
  if hasContext text then 80 else 40

/-- The `structure` aspect of `calculateOverallScore`. -/
def structureScore (text : List Char) : ℚ :=
  calculateAspectScore text structureSections true * 0.5 +
    calculateAspectScore text structureFormatting true * 0.5

/-- `hasGoals` test, from a fresh `lastIndex` (the in-context sequential
values are produced by `completenessRound` below). -/
def hasGoals (text : List Char) : Bool :=
  completenessGoals.any (testP text)

/-- `hasConstraints` test, from a fresh `lastIndex`. -/
def hasConstraints (text : List Char) : Bool :=
  completenessConstraints.any (testP text)

/-- `hasAudience` test, from a fresh `lastIndex`. -/
def hasAudience (text : List Char) : Bool :=
  completenessAudience.any (testP text)

/-- The `completeness` aspect of `calculateOverallScore`. -/
def completenessScore (text : List Char) : ℚ :=
  (if hasGoals text then 40 else 0) + (if hasConstraints text then 30 else 0) +
    (if hasAudience text then 30 else 0)

/-- JS `Math.round` (the scores rounded here are nonnegative, where
`Math.round x = ⌊x + 1/2⌋`). -/
def jsRound (q : ℚ) : ℤ :=
  ⌊q + 1 / 2⌋

/-- `calculateOverallScore`: the fixed weighted combination
`clarity*0.25 + specificity*0.25 + context*0.2 + structure*0.15 +
completeness*0.15`, rounded; completeness built from the fresh-state
tests (the in-context form with the mutable `lastIndex` slots threaded
is `calculateOverallScoreSt` below). -/
def calculateOverallScore (text : List Char) : ℤ :=
  jsRound (clarityScore text * 0.25 + specificityScore text * 0.25 +
    contextScore text * 0.2 + structureScore text * 0.15 +
    completenessScore text * 0.15)

/-- Issue severities. -/
inductive Severity where
  | low
  | medium
  | high
deriving DecidableEq, Repr

/-- `QualityIssueType` (the source name `structure` is a Lean keyword and is
spelled `struct` here). -/
inductive QualityIssueType where
  | clarity
  | specificity
  | context
  | struct
  | completeness
  | tone
  | technical
deriving DecidableEq, Repr

/-- A quality issue (`QualityIssue`; the optional `position` field is never
set by the source and is omitted). -/
structure QualityIssue where
  type : QualityIssueType
  severity : Severity
  explanation : String
  suggestion : String
deriving DecidableEq, Repr

/-- `identifyIssues` from the analyzer, with the `exec`-loop match counts
expressed through `countP`. -/
def identifyIssues (text : List Char) : List QualityIssue :=
  let wordCount := (PromptP.splitWS text []).length
  let vagueMatches := (clarityVague.map (countP text)).sum
  let ambiguousMatches := (clarityAmbiguous.map (countP text)).sum
  let lacksSpecificsCount := (specificityLacking.map (countP text)).sum
  let hasMeasuresCount := (specificityMeasures.map (countP text)).sum
  let missingContextMatch := contextMissing.any (testP text)
  let hasContextMatch := contextDefined.any (testP text)
  let hasSectionsCount := (structureSections.map (countP text)).sum
  let hasFormattingCount := (structureFormatting.map (countP text)).sum
  (if 0 < vagueMatches then
    [{ type := QualityIssueType.clarity,
       severity := if 3 < vagueMatches then Severity.high else Severity.medium,
       explanation := "Your prompt contains vague or imprecise language.",
       suggestion := "Replace vague terms with specific, measurable descriptions. For example, use \"increase conversion by 15%\" instead of \"make it better\"." }]
   else []) ++
  (if 0 < ambiguousMatches then
    [{ type := QualityIssueType.clarity,
       severity := if 3 < ambiguousMatches then Severity.high else Severity.medium,
       explanation := "Your prompt contains potentially ambiguous pronouns that could cause confusion.",
       suggestion := "Replace pronouns like \"it\", \"they\" with the specific nouns they refer to." }]
   else []) ++
  (if 2 < lacksSpecificsCount ∧ hasMeasuresCount = 0 then
    [{ type := QualityIssueType.specificity,
       severity := Severity.medium,
       explanation := "Your prompt uses general descriptors without specific measurements or criteria.",
       suggestion := "Add concrete numbers, percentages, dimensions, or time frames to clarify your expectations." }]
   else []) ++
  (if missingContextMatch ∧ ¬hasContextMatch ∧ wordCount < 50 then
    [{ type := QualityIssueType.context,
       severity := Severity.high,
       explanation := "Your prompt lacks context about the purpose or background of the request.",
       suggestion := "Add information about why you need this, where it will be used, or what problem it solves." }]
   else []) ++
  (if 50 < wordCount ∧ hasSectionsCount = 0 ∧ hasFormattingCount = 0 then
    [{ type := QualityIssueType.struct,
       severity := Severity.medium,
       explanation := "Your prompt is long but lacks clear structure or formatting.",
       suggestion := "Break down your request into numbered sections, bullet points, or clear paragraphs with headings." }]
   else []) ++
  (if ¬hasGoals text ∧ 20 < wordCount then
    [{ type := QualityIssueType.completeness,
       severity := Severity.medium,
       explanation := "Your prompt doesn\x27t clearly state the goal or objective.",
       suggestion := "Add a sentence about what you want to achieve or the purpose of this request." }]
   else []) ++
  (if ¬hasConstraints text ∧ 30 < wordCount then
    [{ type := QualityIssueType.completeness,
       severity := Severity.low,
       explanation := "Your prompt doesn\x27t mention any constraints or limitations.",
       suggestion := "Consider adding boundaries like word count, format requirements, or things to avoid." }]
   else []) ++
  (if ¬hasAudience text ∧ 40 < wordCount then
    [{ type := QualityIssueType.completeness,
       severity := Severity.low,
       explanation := "Your prompt doesn\x27t specify the target audience or reader.",
       suggestion := "Mention who the content is for to help tailor the tone and complexity appropriately." }]
   else [])

/-- `identifyStrengths` from the analyzer. -/
def identifyStrengths (text : List Char) : List String :=
  let wordCount := (PromptP.splitWS text []).length
  let hasSectionsCount := (structureSections.map (countP text)).sum
  let hasFormattingCount := (structureFormatting.map (countP text)).sum
  let hasMeasuresCount := (specificityMeasures.map (countP text)).sum
  let hasContextMatch := contextDefined.any (testP text)
  (if 0 < hasSectionsCount ∨ 0 < hasFormattingCount then
    ["Good structure with clear sections or formatting"] else []) ++
  (if 0 < hasMeasuresCount then
    ["Includes specific measurements or criteria"] else []) ++
  (if hasContextMatch then
    ["Provides clear context or background information"] else []) ++
  (if hasGoals text then ["Clearly states the goal or objective"] else []) ++
  (if hasConstraints text then ["Includes constraints or boundaries"] else []) ++
  (if hasAudience text then ["Specifies the target audience"] else []) ++
  (if 10 < wordCount ∧ wordCount < 20 then ["Concise and focused"]
   else if 20 ≤ wordCount ∧ wordCount ≤ 100 then
     ["Good level of detail without being excessive"]
   else if 100 < wordCount then ["Comprehensive with substantial detail"]
   else [])

/-- `generateOverallFeedback`. -/
def generateOverallFeedback (score : ℤ) (issueCount : Nat) : String :=
  if 90 ≤ score then
    "Excellent prompt! Very clear, specific, and well-structured."
  else if 75 ≤ score then
    "Good prompt with clear intent. A few minor improvements could make it even better."
  else if 60 ≤ score then
    "Decent prompt that communicates the basic idea, but could benefit from more specificity and structure."
  else if 40 ≤ score then
    "Your prompt needs improvement in " ++ toString issueCount ++
      " areas. Consider adding more context and specific details."
  else
    "This prompt requires significant revision. Consider addressing the issues listed and providing much more context and specificity."

/-- `PromptQualityFeedback`. -/
structure PromptQualityFeedback where
  score : ℤ
  issues : List QualityIssue
  strengths : List String
  overallFeedback : String
deriving DecidableEq, Repr

/-- `analyzePromptQuality`: the public entry point of the analyzer,
with every regex evaluated from a fresh state (the faithful
`lastIndex`-threaded form is `analyzePromptQualitySt` below; the two
agree on every text on which the three `g`-flagged completeness
regexes do not match, and on all state-independent outputs). -/
def analyzePromptQuality (text : List Char) : PromptQualityFeedback :=
  let issues := identifyIssues text
  let strengths := identifyStrengths text
  let score := calculateOverallScore text
  { score := score
    issues := issues
    strengths := strengths
    overallFeedback := generateOverallFeedback score issues.length }

/-- Total count of `clarity.vague` matches of a text (the quantity the
vague-injection claim varies). -/
def vagueMatchCount (text : List Char) : Nat :=
  (clarityVague.map (countP text)).sum

/-- JS `test()` on a `g`-flagged module-level regex with mutable
`lastIndex` (`RegExpBuiltinExec`): with `lastIndex = li`, search for the
first match at a position at or after `li`; on success return `true` with
`lastIndex` set to the end of the match, on failure (including `li`
beyond the input) return `false` with `lastIndex` reset to 0. -/
def gTestP (text : List Char) (p : Pat) (li : Nat) : Bool × Nat :=
  let t := if p.ci then PromptP.foldCase text else text
  if t.length < li then (false, 0)
  else
    match findEnd p.re ((t.take li).reverse) (t.drop li) with
    | some rem => (true, t.length - rem.length)
    | none => (false, 0)

/-- The persistent `lastIndex` slots of the three `g`-flagged
`completeness` regexes — the only module-level regexes both `g`-flagged
and consumed via `test()`. -/
structure GState where
  goals : Nat
  constraints : Nat
  audience : Nat
deriving DecidableEq, Repr

/-- Module-load state: every `lastIndex` is 0. -/
def gInit : GState := { goals := 0, constraints := 0, audience := 0 }

/-- One round of the three completeness `.test(text)` calls in source
order (`hasGoals`, then `hasConstraints`, then `hasAudience`; each list
holds a single pattern, so `.some` is that one test): the booleans
obtained and the regex state left behind. -/
def completenessRound (text : List Char) (st : GState) :
    (Bool × Bool × Bool) × GState :=
  let g := gTestP text goals1 st.goals
  let c := gTestP text constraints1 st.constraints
  let a := gTestP text audience1 st.audience
  ((g.1, c.1, a.1),
   { goals := g.2, constraints := c.2, audience := a.2 })

/-- The `completeness` aspect of `calculateOverallScore` as a function of
the three booleans its `test` calls returned. -/
def completenessOf (b : Bool × Bool × Bool) : ℚ :=
  (if b.1 then 40 else 0) + (if b.2.1 then 30 else 0) +
    (if b.2.2 then 30 else 0)

/-- The completeness booleans as `calculateOverallScore` observes them
inside `analyzePromptQuality`: the third sequential round of `test`s on
the mutable regexes, after `identifyIssues` and `identifyStrengths` each
ran one round. -/
def scoreTimeCompleteness (text : List Char) (st : GState) :
    Bool × Bool × Bool :=
  (completenessRound text
    (completenessRound text (completenessRound text st).2).2).1

/-- The issue list of `identifyIssues` as a function of the three
completeness test outcomes `g`, `c`, `a` (every other input of the list
is regex-state independent); `identifyIssues` is the fresh-state
instance. -/
def issuesWith (text : List Char) (g c a : Bool) : List QualityIssue :=
  let wordCount := (PromptP.splitWS text []).length
  let vagueMatches := (clarityVague.map (countP text)).sum
  let ambiguousMatches := (clarityAmbiguous.map (countP text)).sum
  let lacksSpecificsCount := (specificityLacking.map (countP text)).sum
  let hasMeasuresCount := (specificityMeasures.map (countP text)).sum
  let missingContextMatch := contextMissing.any (testP text)
  let hasContextMatch := contextDefined.any (testP text)
  let hasSectionsCount := (structureSections.map (countP text)).sum
  let hasFormattingCount := (structureFormatting.map (countP text)).sum
  (if 0 < vagueMatches then
    [{ type := QualityIssueType.clarity,
       severity := if 3 < vagueMatches then Severity.high else Severity.medium,
       explanation := "Your prompt contains vague or imprecise language.",
       suggestion := "Replace vague terms with specific, measurable descriptions. For example, use \"increase conversion by 15%\" instead of \"make it better\"." }]
   else []) ++
  (if 0 < ambiguousMatches then
    [{ type := QualityIssueType.clarity,
       severity := if 3 < ambiguousMatches then Severity.high else Severity.medium,
       explanation := "Your prompt contains potentially ambiguous pronouns that could cause confusion.",
       suggestion := "Replace pronouns like \"it\", \"they\" with the specific nouns they refer to." }]
   else []) ++
  (if 2 < lacksSpecificsCount ∧ hasMeasuresCount = 0 then
    [{ type := QualityIssueType.specificity,
       severity := Severity.medium,
       explanation := "Your prompt uses general descriptors without specific measurements or criteria.",
       suggestion := "Add concrete numbers, percentages, dimensions, or time frames to clarify your expectations." }]
   else []) ++
  (if missingContextMatch ∧ ¬hasContextMatch ∧ wordCount < 50 then
    [{ type := QualityIssueType.context,
       severity := Severity.high,
       explanation := "Your prompt lacks context about the purpose or background of the request.",
       suggestion := "Add information about why you need this, where it will be used, or what problem it solves." }]
   else []) ++
  (if 50 < wordCount ∧ hasSectionsCount = 0 ∧ hasFormattingCount = 0 then
    [{ type := QualityIssueType.struct,
       severity := Severity.medium,
       explanation := "Your prompt is long but lacks clear structure or formatting.",
       suggestion := "Break down your request into numbered sections, bullet points, or clear paragraphs with headings." }]
   else []) ++
  (if g = false ∧ 20 < wordCount then
    [{ type := QualityIssueType.completeness,
       severity := Severity.medium,
       explanation := "Your prompt doesn\x27t clearly state the goal or objective.",
       suggestion := "Add a sentence about what you want to achieve or the purpose of this request." }]
   else []) ++
  (if c = false ∧ 30 < wordCount then
    [{ type := QualityIssueType.completeness,
       severity := Severity.low,
       explanation := "Your prompt doesn\x27t mention any constraints or limitations.",
       suggestion := "Consider adding boundaries like word count, format requirements, or things to avoid." }]
   else []) ++
  (if a = false ∧ 40 < wordCount then
    [{ type := QualityIssueType.completeness,
       severity := Severity.low,
       explanation := "Your prompt doesn\x27t specify the target audience or reader.",
       suggestion := "Mention who the content is for to help tailor the tone and complexity appropriately." }]
   else [])

/-- The strength list of `identifyStrengths` as a function of the three
completeness test outcomes; `identifyStrengths` is the fresh-state
instance. -/
def strengthsWith (text : List Char) (g c a : Bool) : List String :=
  let wordCount := (PromptP.splitWS text []).length
  let hasSectionsCount := (structureSections.map (countP text)).sum
  let hasFormattingCount := (structureFormatting.map (countP text)).sum
  let hasMeasuresCount := (specificityMeasures.map (countP text)).sum
  let hasContextMatch := contextDefined.any (testP text)
  (if 0 < hasSectionsCount ∨ 0 < hasFormattingCount then
    ["Good structure with clear sections or formatting"] else []) ++
  (if 0 < hasMeasuresCount then
    ["Includes specific measurements or criteria"] else []) ++
  (if hasContextMatch then
    ["Provides clear context or background information"] else []) ++
  (if g then ["Clearly states the goal or objective"] else []) ++
  (if c then ["Includes constraints or boundaries"] else []) ++
  (if a then ["Specifies the target audience"] else []) ++
  (if 10 < wordCount ∧ wordCount < 20 then ["Concise and focused"]
   else if 20 ≤ wordCount ∧ wordCount ≤ 100 then
     ["Good level of detail without being excessive"]
   else if 100 < wordCount then ["Comprehensive with substantial detail"]
   else [])

/-- `calculateOverallScore` with the regex state explicit: its three
completeness `test`s are one further round from the incoming state. -/
def calculateOverallScoreSt (text : List Char) (st : GState) : ℤ × GState :=
  let r := completenessRound text st
  (jsRound (clarityScore text * 0.25 + specificityScore text * 0.25 +
    contextScore text * 0.2 + structureScore text * 0.15 +
    completenessOf r.1 * 0.15), r.2)

/-- `analyzePromptQuality` with the `g`-flagged regexes' `lastIndex`
state threaded through the three phases exactly as the source mutates
it: `identifyIssues` performs the first round of completeness `test`s,
`identifyStrengths` the second, `calculateOverallScore` the third, and
the final state persists to the next call. -/
def analyzePromptQualitySt (text : List Char) (st : GState) :
    PromptQualityFeedback × GState :=
  let r1 := completenessRound text st
  let issues := issuesWith text r1.1.1 r1.1.2.1 r1.1.2.2
  let r2 := completenessRound text r1.2
  let strengths := strengthsWith text r2.1.1 r2.1.2.1 r2.1.2.2
  let sc := calculateOverallScoreSt text r2.2
  ({ score := sc.1
     issues := issues
     strengths := strengths
     overallFeedback := generateOverallFeedback sc.1 issues.length }, sc.2)

end PromptP.Quality

namespace PromptP.AiEngine

open PromptP.Rx

/-!
Embedding of src/client/src/lib/utils/ai-engine.ts (the rule-based prompt
enhancement engine used by the client workspace).
-/

/-- `UserRole` of the ai-engine module. -/
inductive UserRole where
  | writer
  | developer
  | designer
  | marketer
deriving DecidableEq, Repr

/-- Word counts of an enhanced prompt. -/
structure WordCount where
  original : Nat
  enhanced : Nat
deriving DecidableEq, Repr

/-- The 3-level specificity label. -/
inductive Specificity where
  | low
  | medium
  | high
deriving DecidableEq, Repr

/-- `EnhancedPrompt`. -/
structure EnhancedPrompt where
  original : List Char
  enhanced : List Char
  wordCount : WordCount
  specificity : Specificity
deriving DecidableEq, Repr

/-- `enhancementTemplates.context`. -/
def contextTemplates : List (List Char) :=
  ["Provide context about the project/situation where this will be used",
   "Include background information on the topic",
   "Specify the intended audience for this content",
   "Clarify the purpose of this request"].map String.toList

/-- `enhancementTemplates.structure`. -/
def structureTemplates : List (List Char) :=
  ["Break this down into numbered steps",
   "Organize this into sections with headings",
   "Use bullet points to list out key requirements",
   "Include both examples and counter-examples"].map String.toList

/-- `enhancementTemplates.details`. -/
def detailsTemplates : List (List Char) :=
  ["Include specific metrics or measurements",
   "Add technical specifications",
   "Describe visual elements in detail",
   "Mention required formats and dimensions"].map String.toList

/-- `enhancementTemplates.style` (not selected by any branch of
`enhancePrompt`, kept for completeness). -/
def styleTemplates : List (List Char) :=
  ["Specify the desired tone (e.g., professional, casual, technical)",
   "Reference examples of preferred style",
   "Include any branding guidelines to follow",
   "Note any terminology preferences or restrictions"].map String.toList

/-- `enhancementTemplates.delivery` (not selected by any branch of
`enhancePrompt`, kept for completeness). -/
def deliveryTemplates : List (List Char) :=
  ["Set expectations for the length/scope of the response",
   "Include formatting requirements",
   "Specify any constraints or limitations",
   "Request specific file formats or deliverables"].map String.toList

/-- `roleSpecificEnhancements`. -/
def roleSpecificEnhancements : UserRole → List (List Char)
  | UserRole.writer =>
    ["Include character development guidelines",
     "Specify narrative style (first-person, third-person, etc.)",
     "Define the pacing and structure of the content",
     "Request specific literary devices or techniques"].map String.toList
  | UserRole.developer =>
    ["Specify programming language and environment",
     "Include performance requirements",
     "Define API specifications or interfaces",
     "Request code comments and documentation style"].map String.toList
  | UserRole.designer =>
    ["Specify color schemes and visual styling",
     "Include brand guidelines to follow",
     "Define target devices and screen sizes",
     "Request specific file formats and resolutions"].map String.toList
  | UserRole.marketer =>
    ["Define target audience demographics",
     "Specify call-to-action requirements",
     "Include brand voice guidelines",
     "Request SEO considerations and keywords"].map String.toList

/-- `topicKeywords`, in the object's insertion order (the order of
`Object.keys` in `detectTopics`). -/
def topicKeywords : List (List Char × List (List Char)) :=
  [("technology".toList,
    ["code", "app", "website", "software", "tech", "program", "develop",
     "algorithm"].map String.toList),
   ("business".toList,
    ["brand", "market", "company", "startup", "product", "customer", "client",
     "strategy"].map String.toList),
   ("creative".toList,
    ["design", "story", "write", "art", "create", "content", "visual",
     "brand"].map String.toList),
   ("education".toList,
    ["learn", "teach", "course", "explain", "student", "concept",
     "understand"].map String.toList)]

/-- JS `String.prototype.includes` (substring containment). -/
def jsIncludes (hay needle : List Char) : Bool :=
  match hay with
  | [] => needle.isEmpty
  | _ :: rest => needle.isPrefixOf hay || jsIncludes rest needle

/-- `detectTopics`: the topics one of whose keywords occurs in the
lower-cased input. -/
def detectTopics (input : List Char) : List (List Char) :=
  let lowercaseInput := PromptP.foldCase input
  (topicKeywords.filter
    (fun t => t.2.any (fun keyword => jsIncludes lowercaseInput keyword))).map
    (fun t => t.1)

/-- The `hasMeasurements` regex of `calculateSpecificity`:
`\d+\s*(px|em|rem|cm|mm|%|seconds|minutes)` (i). -/
def measurementsPat : Pat :=
  { re := Re.seq [Re.rep Char.isDigit 1 none, Re.rep PromptP.isWS 0 none,
      wordAlt "px" ["em", "rem", "cm", "mm", "%", "seconds", "minutes"]]
    ci := true }

/-- The specific-terms words of `calculateSpecificity`
(`/specific|exactly|precise|detailed/i`, a bare substring alternation). -/
def specificTerms : List (List Char) :=
  ["specific", "exactly", "precise", "detailed"].map String.toList

/-- `calculateSpecificity`: the word count here is the raw
`text.split(/\s+/).length` (without the `filter(Boolean)` of
`countWords`). -/
def calculateSpecificity (text : List Char) : Specificity :=
  let wordCount := (PromptP.splitWS text []).length
  let hasSpecificTerms :=
    specificTerms.any (fun w => jsIncludes (PromptP.foldCase text) w)
  let hasMeasurements := testP text measurementsPat
  if (15 < wordCount && hasSpecificTerms) || hasMeasurements then
    Specificity.high
  else if 8 < wordCount then Specificity.medium
  else Specificity.low

/-- JS `Array.prototype.join(sep)`. -/
def joinSep (sep : List Char) : List (List Char) → List Char
  | [] => []
  | [x] => x
  | x :: rest => x ++ sep ++ joinSep sep rest

/-- The `sections` list of the very-short-prompt branch. -/
def sectionsList : List (List Char) :=
  ["1. Clear context and background information",
   "2. Specific details and requirements",
   "3. Desired format and structure",
   "4. Style and tone guidelines",
   "5. Examples or references if applicable"].map String.toList

/-- `enhancePrompt` from src/client/src/lib/utils/ai-engine.ts. The source
defaults are `role = "writer"`, `shouldAddSections = true`; both are
explicit parameters here. -/
def enhancePrompt (originalPrompt : List Char) (role : UserRole)
    (shouldAddSections : Bool) : EnhancedPrompt :=
  let trimmedPrompt := PromptP.jsTrim originalPrompt
  if trimmedPrompt.isEmpty then
    { original := []
      enhanced := "Please provide a prompt to enhance.".toList
      wordCount := { original := 0, enhanced := 7 }
      specificity := Specificity.low }
  else
    let detectedTopics := detectTopics trimmedPrompt
    let originalWords := PromptP.countWords trimmedPrompt
    let enhancedText :=
      if originalWords < 5 then
        let base := "Provide a detailed and comprehensive ".toList ++
          (if 0 < detectedTopics.length then
            joinSep "/".toList detectedTopics ++ " ".toList
          else []) ++ trimmedPrompt ++ " that includes:\n\n".toList
        let base2 :=
          if shouldAddSections then base ++ joinSep "\n".toList sectionsList
          else base
        let roleEnhancements := (roleSpecificEnhancements role).take 2
        if 0 < roleEnhancements.length then
          base2 ++ "\n\nAlso include:\n".toList ++
            joinSep "\n".toList
              (roleEnhancements.map (fun e => "- ".toList ++ e))
        else base2
      else if originalWords < 15 then
        let relevantEnhancements :=
          contextTemplates.take 1 ++ structureTemplates.take 1 ++
            detailsTemplates.take 2 ++ (roleSpecificEnhancements role).take 2
        trimmedPrompt ++ "\n\nPlease include:\n".toList ++
          joinSep "\n".toList
            (relevantEnhancements.map (fun e => "- ".toList ++ e))
      else
        let topEnhancements := (roleSpecificEnhancements role).take 3
        trimmedPrompt ++ "\n\nAdditional requirements:\n".toList ++
          joinSep "\n".toList
            (topEnhancements.map (fun e => "- ".toList ++ e)) ++
          "\n\nEnsure the output is comprehensive, well-structured, and aligned with professional standards for this type of content.".toList
    { original := originalPrompt
      enhanced := enhancedText
      wordCount := { original := originalWords
                     enhanced := PromptP.countWords enhancedText }
      specificity := calculateSpecificity enhancedText }

end PromptP.AiEngine




namespace PromptP.Tpl

theorem lookupValue_foldl_char (vals : List TemplateVariableValue) (id : Nat)
    (a : Option (List Char)) :
    vals.foldl (fun acc v => if v.id = id then some v.value else acc) a =
      match vals.reverse.find? (fun v => v.id = id) with
      | some v => some v.value
      | none => a := by
  induction vals generalizing a with
  | nil => simp
  | cons e rest ih =>
    simp only [List.foldl_cons, List.reverse_cons]
    rw [ih]
    rcases hf : rest.reverse.find? (fun v => v.id = id) with _ | w
    · by_cases he : e.id = id <;> simp [List.find?_append, hf, he]
    · simp [List.find?_append, hf]

/-- The last-entry-wins characterisation of the `valueMap`. -/
theorem lookupValue_eq_find (vals : List TemplateVariableValue) (id : Nat) :
    lookupValue vals id =
      (vals.reverse.find? (fun v => v.id = id)).map (fun v => v.value) := by
  rw [lookupValue, lookupValue_foldl_char]
  rcases hf : vals.reverse.find? (fun v => v.id = id) with _ | w <;> simp [hf]

theorem lookupValue_append_single (vals : List TemplateVariableValue)
    (v : TemplateVariableValue) (id : Nat) :
    lookupValue (vals ++ [v]) id =
      if v.id = id then some v.value else lookupValue vals id := by
  rw [lookupValue_eq_find, lookupValue_eq_find]
  simp only [List.reverse_append, List.reverse_singleton, List.singleton_append,
    List.find?_cons]
  by_cases hv : v.id = id <;> simp [hv]

theorem lookupValue_filter_self (vals : List TemplateVariableValue) (k : Nat) :
    lookupValue (vals.filter (fun e => e.id ≠ k)) k = none := by
  rw [lookupValue_eq_find]
  rw [List.find?_eq_none.2]
  · rfl
  · intro x hx
    rw [List.mem_reverse, List.mem_filter] at hx
    simpa using hx.2

theorem find_filter_of_imp {α : Type} (p q : α → Bool) (l : List α)
    (h : ∀ x, p x = true → q x = true) :
    (l.filter q).find? p = l.find? p := by
  induction l with
  | nil => rfl
  | cons e rest ih =>
    by_cases hq : q e = true
    · by_cases hp : p e = true
      · simp [List.filter_cons, hq, List.find?_cons, hp]
      · simp only [List.filter_cons, hq, if_pos rfl] at *
        simp [List.find?_cons, hp, ih]
    · have hp : ¬(p e = true) := fun hpe => hq (h e hpe)
      simp only [List.filter_cons]
      rw [if_neg hq]
      simp [List.find?_cons, hp, ih]

theorem lookupValue_filter_ne (vals : List TemplateVariableValue) (k j : Nat)
    (hjk : j ≠ k) :
    lookupValue (vals.filter (fun e => e.id ≠ k)) j = lookupValue vals j := by
  rw [lookupValue_eq_find, lookupValue_eq_find, ← List.filter_reverse]
  rw [find_filter_of_imp]
  intro x hx
  simp only [decide_eq_true_eq] at hx ⊢
  rw [hx]
  exact hjk

theorem effValue_append_empty (vals : List TemplateVariableValue)
    (e : TemplateVariableValue) (he : e.value = []) (v : TemplateVariable) :
    effValue (vals ++ [e]) v =
      effValue (vals.filter (fun x => x.id ≠ e.id)) v := by
  unfold effValue
  rw [lookupValue_append_single]
  by_cases hid : e.id = v.id
  · rw [if_pos hid, he, hid, lookupValue_filter_self]
    simp
  · rw [if_neg hid, lookupValue_filter_ne]
    exact fun h => hid h.symm

/-- C10: supplying the empty string for a variable makes `applyTemplate`
fall back to that variable's `defaultValue`, exactly as if no value had
been supplied for it at all; appending an empty-valued entry is
indistinguishable (at the output) from erasing that variable id from the
supplied values. -/
theorem applyTemplate_empty_value_default (template : PromptTemplate)
    (vals : List TemplateVariableValue) (e : TemplateVariableValue)
    (he : e.value = []) :
    applyTemplate template (vals ++ [e]) =
      applyTemplate template (vals.filter (fun x => x.id ≠ e.id)) := by
  unfold applyTemplate
  refine List.foldl_ext _ _ _ ?_
  intro acc v _
  rw [effValue_append_empty vals e he v]

/-- C10 witness: a concrete template with one variable `n` whose default is
empty; supplying `""` for it produces the same output as supplying nothing. -/
theorem applyTemplate_empty_value_default_witness :
    ({ id := 0, value := [] } : TemplateVariableValue).value = [] ∧
      applyTemplate (createTemplate (tokenOf "n".toList))
          ([{ id := 0, value := "x".toList }] ++ [{ id := 0, value := [] }]) =
        applyTemplate (createTemplate (tokenOf "n".toList))
          ([{ id := 0, value := "x".toList }].filter (fun x => x.id ≠ 0)) :=
  ⟨rfl, applyTemplate_empty_value_default (createTemplate (tokenOf "n".toList))
    [{ id := 0, value := "x".toList }] { id := 0, value := [] } rfl⟩

unseal tokenScan replaceAll in
/-- C2 counterexample: the template created from content `Hello \x7b\x7b n \x7d\x7d`
has one variable (trimmed name `n`), and supplying a value for it still
leaves the `\x7b\x7b n \x7d\x7d` token in the applied output, because
`applyTemplate` searches for `\x7b\x7bn\x7d\x7d` without the padding whitespace the
token actually carries. So "all variables supplied" does not imply a
token-free output. -/
theorem applyTemplate_leftover_token_cex :
    suppliesAll cexTemplate cexValues ∧
      hasTemplateToken (applyTemplate cexTemplate cexValues) = true := by
  constructor
  · decide
  · decide

theorem tokenOf_ne_nil (n : List Char) : tokenOf n ≠ [] := by
  simp [tokenOf]

theorem replaceAll_nil (pat rep : List Char) : replaceAll pat rep [] = [] := by
  rw [replaceAll.eq_def]
  split
  · rfl
  · rfl

theorem identChar_braceFree (c : Char) (h : identChar c = true) :
    braceFree c = true := by
  have h1 : c ≠ '{' := by
    intro he
    subst he
    exact absurd h (by decide)
  have h2 : c ≠ '}' := by
    intro he
    subst he
    exact absurd h (by decide)
  simp [braceFree, h1, h2]

theorem identChar_not_ws (c : Char) (h : identChar c = true) :
    PromptP.isWS c = false := by
  cases hb : PromptP.isWS c
  · rfl
  · exfalso
    simp only [PromptP.isWS, Bool.or_eq_true, decide_eq_true_eq] at hb
    rcases hb with ((((h1 | h1) | h1) | h1) | h1) | h1 <;>
      (subst h1; exact absurd h (by decide))

theorem isPrefixOf_head_ne (p c : Char) (ps rest : List Char) (h : p ≠ c) :
    (p :: ps).isPrefixOf (c :: rest) = false := by
  simp [List.isPrefixOf, h]

theorem isPrefixOf_append_self (l u : List Char) :
    l.isPrefixOf (l ++ u) = true := by
  induction l with
  | nil => simp [List.isPrefixOf]
  | cons c l ih => simp [List.isPrefixOf, ih]

theorem replaceAll_cons_neg (pat rep : List Char) (c : Char) (rest : List Char)
    (hp : pat ≠ []) (h : pat.isPrefixOf (c :: rest) = false) :
    replaceAll pat rep (c :: rest) = c :: replaceAll pat rep rest := by
  rw [replaceAll.eq_def, dif_neg hp]
  simp [h]

theorem replaceAll_here (pat rep u : List Char) (hp : pat ≠ []) :
    replaceAll pat rep (pat ++ u) = rep ++ replaceAll pat rep u := by
  obtain ⟨c, pt, rfl⟩ : ∃ c pt, pat = c :: pt := by
    cases pat with
    | nil => exact absurd rfl hp
    | cons c pt => exact ⟨c, pt, rfl⟩
  rw [replaceAll.eq_def, dif_neg hp]
  simp only [List.cons_append]
  have hpre : (c :: pt).isPrefixOf (c :: (pt ++ u)) = true := by
    have := isPrefixOf_append_self (c :: pt) u
    simpa using this
  simp only [hpre, if_true]
  have hdrop : (c :: (pt ++ u)).drop (c :: pt).length = u := by
    simp [List.drop_left]
  rw [hdrop]

theorem token_isPrefixOf_ne (n m u v : List Char) (hn : ∀ c ∈ n, c ≠ '}')
    (hm : ∀ c ∈ m, c ≠ '}') (hne : n ≠ m) :
    (n ++ '}' :: u).isPrefixOf (m ++ '}' :: v) = false := by
  induction n generalizing m with
  | nil =>
    cases m with
    | nil => exact absurd rfl hne
    | cons c m =>
      have hc : ('}' == c) = false :=
        beq_eq_false_iff_ne.mpr (fun he => hm c (List.mem_cons_self c m) he.symm)
      simp [List.isPrefixOf, hc]
  | cons a n ih =>
    cases m with
    | nil =>
      have ha : (a == '}') = false :=
        beq_eq_false_iff_ne.mpr (hn a (List.mem_cons_self a n))
      simp [List.isPrefixOf, ha]
    | cons c m =>
      simp only [List.cons_append, List.isPrefixOf, List.append_eq]
      by_cases hac : a = c
      · subst hac
        have hne2 : n ≠ m := fun he => hne (by rw [he])
        rw [ih m (fun x hx => hn x (List.mem_cons_of_mem a hx))
          (fun x hx => hm x (List.mem_cons_of_mem a hx)) hne2]
        simp
      · have := beq_eq_false_iff_ne.mpr hac
        simp [this]

theorem replaceAll_txt (n rep t s : List Char)
    (ht : ∀ c ∈ t, braceFree c = true) :
    replaceAll (tokenOf n) rep (t ++ s) = t ++ replaceAll (tokenOf n) rep s := by
  induction t with
  | nil => simp
  | cons c t ih =>
    have hc : c ≠ '{' := by
      have := ht c (List.mem_cons_self c t)
      simp [braceFree] at this
      exact this.1
    have hpre : (tokenOf n).isPrefixOf (c :: (t ++ s)) = false :=
      isPrefixOf_head_ne '{' c _ _ (fun he => hc he.symm)
    rw [List.cons_append,
      replaceAll_cons_neg (tokenOf n) rep c (t ++ s) (tokenOf_ne_nil n) hpre,
      ih (fun x hx => ht x (List.mem_cons_of_mem c hx))]
    simp

theorem replaceAll_token_ne (n m rep s : List Char)
    (hn : ∀ c ∈ n, c ≠ '}') (hm0 : m ≠ [])
    (hm : ∀ c ∈ m, braceFree c = true) (hne : n ≠ m) :
    replaceAll (tokenOf n) rep (tokenOf m ++ s) =
      tokenOf m ++ replaceAll (tokenOf n) rep s := by
  obtain ⟨d, m1, rfl⟩ : ∃ d m1, m = d :: m1 := by
    cases m with
    | nil => exact absurd rfl hm0
    | cons d m1 => exact ⟨d, m1, rfl⟩
  have hshape : tokenOf (d :: m1) ++ s =
      '{' :: '{' :: ((d :: m1) ++ '}' :: '}' :: s) := by
    simp [tokenOf]
  rw [hshape]
  have h0 : (tokenOf n).isPrefixOf
      ('{' :: '{' :: ((d :: m1) ++ '}' :: '}' :: s)) = false := by
    show ('{' :: '{' :: (n ++ ['}', '}'])).isPrefixOf _ = false
    simp only [List.isPrefixOf, beq_self_eq_true, Bool.true_and]
    have he1 : (n ++ ['}', '}'] : List Char) = n ++ '}' :: ['}'] := rfl
    have he2 : ((d :: m1) ++ '}' :: '}' :: s : List Char) =
        (d :: m1) ++ '}' :: ('}' :: s) := rfl
    rw [he1, he2]
    exact token_isPrefixOf_ne n (d :: m1) ['}'] ('}' :: s) hn
      (fun c hc => by
        have := hm c hc
        simp [braceFree] at this
        exact this.2) hne
  rw [replaceAll_cons_neg _ rep '{' _ (tokenOf_ne_nil n) h0]
  have hd : ('{' == d) = false := by
    have := hm d (List.mem_cons_self d m1)
    simp [braceFree] at this
    exact beq_eq_false_iff_ne.mpr (fun he => this.1 he.symm)
  have h1 : (tokenOf n).isPrefixOf
      ('{' :: ((d :: m1) ++ '}' :: '}' :: s)) = false := by
    show ('{' :: '{' :: (n ++ ['}', '}'])).isPrefixOf _ = false
    simp [List.isPrefixOf, hd]
  rw [replaceAll_cons_neg _ rep '{' _ (tokenOf_ne_nil n) h1]
  rw [replaceAll_txt n rep (d :: m1) ('}' :: '}' :: s) hm]
  have hr1 : (tokenOf n).isPrefixOf ('}' :: '}' :: s) = false :=
    isPrefixOf_head_ne '{' '}' _ _ (by decide)
  have hr2 : (tokenOf n).isPrefixOf ('}' :: s) = false :=
    isPrefixOf_head_ne '{' '}' _ _ (by decide)
  rw [replaceAll_cons_neg _ rep '}' _ (tokenOf_ne_nil n) hr1,
    replaceAll_cons_neg _ rep '}' _ (tokenOf_ne_nil n) hr2]
  simp [tokenOf]

theorem lookupName_append_some (done rest : List (List Char × List Char))
    (m v : List Char) (h : lookupName done m = some v) :
    lookupName (done ++ rest) m = some v := by
  induction done with
  | nil => simp [lookupName] at h
  | cons p t ih =>
    obtain ⟨a, b⟩ := p
    simp only [lookupName] at h
    simp only [List.cons_append, lookupName]
    by_cases hab : a = m
    · rw [if_pos hab] at h ⊢
      exact h
    · rw [if_neg hab] at h ⊢
      exact ih h

theorem lookupName_append_none (done rest : List (List Char × List Char))
    (m : List Char) (h : lookupName done m = none) :
    lookupName (done ++ rest) m = lookupName rest m := by
  induction done with
  | nil => rfl
  | cons p t ih =>
    obtain ⟨a, b⟩ := p
    simp only [lookupName] at h
    simp only [List.cons_append, lookupName]
    by_cases hab : a = m
    · rw [if_pos hab] at h
      exact absurd h (by simp)
    · rw [if_neg hab] at h ⊢
      exact ih h

theorem lookupName_mem (done : List (List Char × List Char)) (m w : List Char)
    (h : lookupName done m = some w) : (m, w) ∈ done := by
  induction done with
  | nil => simp [lookupName] at h
  | cons p t ih =>
    obtain ⟨a, b⟩ := p
    simp only [lookupName] at h
    by_cases hab : a = m
    · rw [if_pos hab] at h
      have hb : b = w := by simpa using h
      subst hab hb
      exact List.mem_cons_self _ _
    · rw [if_neg hab] at h
      exact List.mem_cons_of_mem _ (ih h)

theorem lookupName_isSome_of_mem (done : List (List Char × List Char))
    (m w : List Char) (h : (m, w) ∈ done) :
    (lookupName done m).isSome = true := by
  induction done with
  | nil => simp at h
  | cons p t ih =>
    obtain ⟨a, b⟩ := p
    simp only [lookupName]
    by_cases hab : a = m
    · simp [if_pos hab]
    · rw [if_neg hab]
      rcases List.mem_cons.1 h with h1 | h2
      · exact absurd (congrArg Prod.fst h1).symm hab
      · exact ih h2

theorem substitute_nil_done (cs : List Chunk) : substitute [] cs = assemble cs := by
  induction cs with
  | nil => rfl
  | cons ch t ih =>
    cases ch with
    | txt x => simp only [substitute, assemble, ih]
    | var n => simp only [substitute, assemble, ih, lookupName, Option.getD_none]

theorem replaceAll_substitute (n w : List Char) (hn : ∀ c ∈ n, c ≠ '}')
    (cs : List Chunk) (done : List (List Char × List Char))
    (hcs : ∀ ch ∈ cs, chunkOK ch = true)
    (hdone : ∀ p ∈ done, ∀ c ∈ p.2, braceFree c = true) :
    replaceAll (tokenOf n) w (substitute done cs) =
      substitute (done ++ [(n, w)]) cs := by
  induction cs with
  | nil => exact replaceAll_nil _ _
  | cons ch t ih =>
    have hcs2 : ∀ c ∈ t, chunkOK c = true :=
      fun c hc => hcs c (List.mem_cons_of_mem ch hc)
    cases ch with
    | txt x =>
      have hx : ∀ c ∈ x, braceFree c = true := by
        have := hcs (Chunk.txt x) (List.mem_cons_self _ _)
        simpa [chunkOK, List.all_eq_true] using this
      simp only [substitute]
      rw [replaceAll_txt n w x _ hx, ih hcs2]
    | var m =>
      have hok := hcs (Chunk.var m) (List.mem_cons_self _ _)
      simp only [chunkOK, Bool.and_eq_true, List.all_eq_true] at hok
      have hm0 : m ≠ [] := by
        intro he
        subst he
        simpa using hok.1
      have hmid : ∀ c ∈ m, identChar c = true := hok.2
      have hmbf : ∀ c ∈ m, braceFree c = true :=
        fun c hc => identChar_braceFree c (hmid c hc)
      simp only [substitute]
      rcases hlm : lookupName done m with _ | v
      · rw [Option.getD_none]
        by_cases hnm : n = m
        · subst hnm
          rw [replaceAll_here _ w _ (tokenOf_ne_nil n), ih hcs2]
          have hfind : lookupName (done ++ [(n, w)]) n = some w := by
            rw [lookupName_append_none done _ n hlm]
            simp [lookupName]
          rw [hfind, Option.getD_some]
        · rw [replaceAll_token_ne n m w _ hn hm0 hmbf hnm, ih hcs2]
          have hfind : lookupName (done ++ [(n, w)]) m = none := by
            rw [lookupName_append_none done _ m hlm]
            simp [lookupName, hnm]
          rw [hfind, Option.getD_none]
      · rw [Option.getD_some]
        have hv : ∀ c ∈ v, braceFree c = true :=
          fun c hc => hdone (m, v) (lookupName_mem done m v hlm) c hc
        rw [replaceAll_txt n w v _ hv, ih hcs2]
        rw [lookupName_append_some done _ m v hlm, Option.getD_some]

theorem foldl_replace_substitute (vals : List TemplateVariableValue)
    (cs : List Chunk) (hcs : ∀ ch ∈ cs, chunkOK ch = true)
    (vl : List TemplateVariable) (done : List (List Char × List Char))
    (hdone : ∀ p ∈ done, ∀ c ∈ p.2, braceFree c = true)
    (hvl : ∀ v ∈ vl, (∀ c ∈ v.name, c ≠ '}') ∧
      (∀ c ∈ effValue vals v, braceFree c = true)) :
    vl.foldl (fun r v => replaceAll (tokenOf v.name) (effValue vals v) r)
        (substitute done cs) =
      substitute (done ++ vl.map (fun v => (v.name, effValue vals v))) cs := by
  induction vl generalizing done with
  | nil => simp
  | cons v vl ih =>
    simp only [List.foldl_cons, List.map_cons]
    rw [replaceAll_substitute v.name (effValue vals v)
      (hvl v (List.mem_cons_self _ _)).1 cs done hcs hdone]
    have hdone2 : ∀ p ∈ done ++ [(v.name, effValue vals v)],
        ∀ c ∈ p.2, braceFree c = true := by
      intro p hp
      rcases List.mem_append.1 hp with h | h
      · exact hdone p h
      · have : p = (v.name, effValue vals v) := List.mem_singleton.1 h
        subst this
        exact (hvl v (List.mem_cons_self _ _)).2
    rw [ih _ hdone2 (fun x hx => hvl x (List.mem_cons_of_mem _ hx))]
    rw [List.append_assoc, List.singleton_append]

theorem substitute_braceFree (cs : List Chunk)
    (done : List (List Char × List Char))
    (hcs : ∀ ch ∈ cs, chunkOK ch = true)
    (hdone : ∀ p ∈ done, ∀ c ∈ p.2, braceFree c = true)
    (hcov : ∀ m ∈ chunkNames cs, (lookupName done m).isSome = true) :
    ∀ c ∈ substitute done cs, braceFree c = true := by
  induction cs with
  | nil => intro c hc; simp [substitute] at hc
  | cons ch t ih =>
    have hcs2 : ∀ c ∈ t, chunkOK c = true :=
      fun c hc => hcs c (List.mem_cons_of_mem ch hc)
    intro c hc
    cases ch with
    | txt x =>
      have hx : ∀ d ∈ x, braceFree d = true := by
        have := hcs (Chunk.txt x) (List.mem_cons_self _ _)
        simpa [chunkOK, List.all_eq_true] using this
      simp only [substitute] at hc
      rcases List.mem_append.1 hc with h | h
      · exact hx c h
      · exact ih hcs2 (fun m hm => hcov m (by simpa [chunkNames] using hm)) c h
    | var m =>
      have hcov2 : ∀ x ∈ chunkNames t, (lookupName done x).isSome = true :=
        fun x hx => hcov x (by simp [chunkNames, hx])
      have hsome := hcov m (by simp [chunkNames])
      rcases hlk : lookupName done m with _ | v
      · rw [hlk] at hsome
        simp at hsome
      · simp only [substitute, hlk, Option.getD_some] at hc
        rcases List.mem_append.1 hc with h | h
        · exact hdone (m, v) (lookupName_mem done m v hlk) c h
        · exact ih hcs2 hcov2 c h

theorem tokenScan_cons_ne (c : Char) (rest : List Char) (hc : c ≠ '{') :
    tokenScan (c :: rest) = tokenScan rest := by
  rw [tokenScan.eq_def]
  split
  · next heq =>
    exact absurd (List.head_eq_of_cons_eq heq) hc
  · next heq =>
    have := List.tail_eq_of_cons_eq heq
    rw [this]
  · next heq =>
    exact absurd heq (List.cons_ne_nil c rest)

theorem takeWhile_append_all (p : Char → Bool) (t s : List Char)
    (ht : ∀ c ∈ t, p c = true) :
    (t ++ s).takeWhile p = t ++ s.takeWhile p := by
  induction t with
  | nil => rfl
  | cons c t ih =>
    have hc := ht c (List.mem_cons_self c t)
    simp only [List.cons_append, List.takeWhile_cons, hc, if_true]
    rw [ih (fun x hx => ht x (List.mem_cons_of_mem c hx))]

theorem dropWhile_append_all (p : Char → Bool) (t s : List Char)
    (ht : ∀ c ∈ t, p c = true) :
    (t ++ s).dropWhile p = s.dropWhile p := by
  induction t with
  | nil => rfl
  | cons c t ih =>
    have hc := ht c (List.mem_cons_self c t)
    simp only [List.cons_append, List.dropWhile_cons, hc, if_true]
    exact ih (fun x hx => ht x (List.mem_cons_of_mem c hx))

theorem tokenScan_token (m s : List Char) (hm0 : m ≠ [])
    (hm : ∀ c ∈ m, c ≠ '}') :
    tokenScan (tokenOf m ++ s) = m :: tokenScan s := by
  have hshape : tokenOf m ++ s = '{' :: '{' :: (m ++ '}' :: '}' :: s) := by
    simp [tokenOf]
  have hpm : ∀ c ∈ m, (fun c => decide ¬(c = '}')) c = true := by
    intro c hc
    simpa using hm c hc
  have htake : (m ++ '}' :: '}' :: s).takeWhile (fun c => decide ¬(c = '}')) =
      m := by
    rw [takeWhile_append_all _ _ _ hpm]
    simp [List.takeWhile_cons]
  have hdrop : (m ++ '}' :: '}' :: s).dropWhile (fun c => decide ¬(c = '}')) =
      '}' :: '}' :: s := by
    rw [dropWhile_append_all _ _ _ hpm]
    simp [List.dropWhile_cons]
  rw [hshape, tokenScan.eq_def]
  split
  · next ss rest heq =>
    have h2 : m ++ '}' :: '}' :: s = rest := by
      have h1 := List.tail_eq_of_cons_eq heq
      exact List.tail_eq_of_cons_eq h1
    subst h2
    have hie : m.isEmpty = false := by
      cases m with
      | nil => exact absurd rfl hm0
      | cons a b => rfl
    split
    · next rem heq2 =>
      rw [hdrop] at heq2
      have h3 : s = rem := by
        have h4 := List.tail_eq_of_cons_eq heq2
        exact List.tail_eq_of_cons_eq h4
      subst h3
      rw [htake]
      simp [hie]
    · next heq2 =>
      exact (heq2 s hdrop).elim
  · next ss head rest hno heq =>
    have h1 : '{' = head := List.head_eq_of_cons_eq heq
    have h2 : '{' :: (m ++ '}' :: '}' :: s) = rest := List.tail_eq_of_cons_eq heq
    exact ((hno (m ++ '}' :: '}' :: s) h1.symm h2.symm).elim)
  · next ss heq =>
    simp at heq

theorem tokenScan_append_txt (t s : List Char)
    (ht : ∀ c ∈ t, braceFree c = true) :
    tokenScan (t ++ s) = tokenScan s := by
  induction t with
  | nil => rfl
  | cons c t ih =>
    have hc : c ≠ '{' := by
      have := ht c (List.mem_cons_self c t)
      simp [braceFree] at this
      exact this.1
    rw [List.cons_append, tokenScan_cons_ne c (t ++ s) hc,
      ih (fun x hx => ht x (List.mem_cons_of_mem c hx))]

theorem tokenScan_assemble (cs : List Chunk)
    (hcs : ∀ ch ∈ cs, chunkOK ch = true) :
    tokenScan (assemble cs) = chunkNames cs := by
  induction cs with
  | nil =>
    rw [tokenScan.eq_def]
    rfl
  | cons ch t ih =>
    have hcs2 : ∀ c ∈ t, chunkOK c = true :=
      fun c hc => hcs c (List.mem_cons_of_mem ch hc)
    cases ch with
    | txt x =>
      have hx : ∀ c ∈ x, braceFree c = true := by
        have := hcs (Chunk.txt x) (List.mem_cons_self _ _)
        simpa [chunkOK, List.all_eq_true] using this
      simp only [assemble, chunkNames]
      rw [tokenScan_append_txt x _ hx, ih hcs2]
    | var m =>
      have hok := hcs (Chunk.var m) (List.mem_cons_self _ _)
      simp only [chunkOK, Bool.and_eq_true, List.all_eq_true] at hok
      have hm0 : m ≠ [] := by
        intro he
        subst he
        simpa using hok.1
      have hmne : ∀ c ∈ m, c ≠ '}' := by
        intro c hc he
        have := hok.2 c hc
        rw [he] at this
        exact absurd this (by decide)
      simp only [assemble, chunkNames]
      rw [tokenScan_token m _ hm0 hmne, ih hcs2]

theorem tokenScan_no_lbrace (s : List Char) (h : '{' ∉ s) : tokenScan s = [] := by
  induction s with
  | nil => rw [tokenScan.eq_def]
  | cons c rest ih =>
    have hc : c ≠ '{' := fun he => h (he ▸ List.mem_cons_self c rest)
    rw [tokenScan_cons_ne c rest hc]
    exact ih (fun hmem => h (List.mem_cons_of_mem c hmem))

theorem dropWhile_all_false (p : Char → Bool) (l : List Char)
    (h : ∀ c ∈ l, p c = false) : l.dropWhile p = l := by
  cases l with
  | nil => rfl
  | cons c rest =>
    simp [List.dropWhile_cons, h c (List.mem_cons_self c rest)]

theorem jsTrim_eq_self (s : List Char) (h : ∀ c ∈ s, PromptP.isWS c = false) :
    jsTrim s = s := by
  unfold PromptP.jsTrim
  rw [dropWhile_all_false _ s h,
    dropWhile_all_false _ s.reverse (fun c hc => h c (List.mem_reverse.1 hc)),
    List.reverse_reverse]

theorem mem_of_mem_dedupNames (seen l : List (List Char)) (x : List Char)
    (h : x ∈ dedupNames seen l) : x ∈ l := by
  induction l generalizing seen with
  | nil => simpa [dedupNames] using h
  | cons n rest ih =>
    simp only [dedupNames] at h
    by_cases hn : n ∈ seen
    · rw [if_pos hn] at h
      exact List.mem_cons_of_mem _ (ih _ h)
    · rw [if_neg hn] at h
      rcases List.mem_cons.1 h with h1 | h2
      · exact h1 ▸ List.mem_cons_self _ _
      · exact List.mem_cons_of_mem _ (ih _ h2)

theorem mem_dedupNames_of_mem (seen l : List (List Char)) (x : List Char)
    (hx : x ∈ l) (hs : x ∉ seen) : x ∈ dedupNames seen l := by
  induction l generalizing seen with
  | nil => simp at hx
  | cons n rest ih =>
    simp only [dedupNames]
    rcases List.mem_cons.1 hx with h1 | h2
    · subst h1
      rw [if_neg hs]
      exact List.mem_cons_self _ _
    · by_cases hn : n ∈ seen
      · rw [if_pos hn]
        exact ih _ h2 hs
      · rw [if_neg hn]
        by_cases hxn : x = n
        · subst hxn
          exact List.mem_cons_self _ _
        · refine List.mem_cons_of_mem _ (ih _ h2 ?_)
          intro hmem
          rcases List.mem_cons.1 hmem with h3 | h4
          · exact hxn h3
          · exact hs h4

theorem extract_names (content : List Char) :
    (extractVariablesFromContent content).map (fun v => v.name) =
      dedupNames [] ((tokenScan content).map jsTrim) := by
  unfold extractVariablesFromContent
  rw [List.map_map]
  exact List.enum_map_snd _

theorem extract_defaultValue (content : List Char) (v : TemplateVariable)
    (hv : v ∈ extractVariablesFromContent content) : v.defaultValue = [] := by
  unfold extractVariablesFromContent at hv
  rcases List.mem_map.1 hv with ⟨p, _, hp⟩
  rw [← hp]

theorem effValue_braceFree (vals : List TemplateVariableValue)
    (v : TemplateVariable) (hd : v.defaultValue = [])
    (hvals : ∀ e ∈ vals, ∀ c ∈ e.value, braceFree c = true) :
    ∀ c ∈ effValue vals v, braceFree c = true := by
  unfold effValue
  rcases hfind : (vals.reverse.find? (fun e => e.id = v.id)) with _ | e
  · rw [lookupValue_eq_find, hfind]
    simp only [Option.map_none']
    rw [hd]
    intro c hc
    simp at hc
  · rw [lookupValue_eq_find, hfind]
    simp only [Option.map_some']
    by_cases hw : e.value = []
    · rw [if_pos hw, hd]
      intro c hc
      simp at hc
    · rw [if_neg hw]
      have he : e ∈ vals := List.mem_reverse.1 (List.mem_of_find?_eq_some hfind)
      exact hvals e he

theorem chunkNames_ok (cs : List Chunk) (hcs : ∀ ch ∈ cs, chunkOK ch = true) :
    ∀ m ∈ chunkNames cs, m ≠ [] ∧ ∀ c ∈ m, identChar c = true := by
  induction cs with
  | nil =>
    intro m hm
    simp [chunkNames] at hm
  | cons ch t ih =>
    have hcs2 : ∀ c ∈ t, chunkOK c = true :=
      fun c hc => hcs c (List.mem_cons_of_mem ch hc)
    intro m hm
    cases ch with
    | txt x => exact ih hcs2 m (by simpa [chunkNames] using hm)
    | var n =>
      simp only [chunkNames] at hm
      rcases List.mem_cons.1 hm with h1 | h2
      · subst h1
        have hok := hcs (Chunk.var m) (List.mem_cons_self _ _)
        simp only [chunkOK, Bool.and_eq_true, List.all_eq_true] at hok
        refine ⟨?_, hok.2⟩
        intro he
        subst he
        simpa using hok.1
      · exact ih hcs2 m h2

/-- C2 amended: for a template whose content is built from well-formed
chunks — literal text containing no brace characters, and `{{name}}`
tokens whose names are nonempty and consist of word characters
`[A-Za-z0-9_]` (so the dynamically built search regex contains no
metacharacter and matches exactly its literal token) — and supplied
variable values whose strings contain neither braces nor `$` (so JS
`replace` inserts them literally, without triggering a `$`-substitution
pattern), if a value is supplied for every one of the template variables
then the string returned by `applyTemplate` contains no remaining
`{{...}}` token. (The unrestricted claim is false: whitespace-padded
token names survive substitution.) -/
theorem applyTemplate_no_leftover_tokens_amended (cs : List Chunk)
    (vals : List TemplateVariableValue)
    (hcs : ∀ ch ∈ cs, chunkOK ch = true)
    (hvals : ∀ e ∈ vals, ∀ c ∈ e.value, literalChar c = true)
    (hsup : suppliesAll (createTemplate (assemble cs)) vals) :
    hasTemplateToken (applyTemplate (createTemplate (assemble cs)) vals) =
      false := by
  clear hsup
  have hvalsb : ∀ e ∈ vals, ∀ c ∈ e.value, braceFree c = true := by
    intro e he c hc
    have hl := hvals e he c hc
    simp only [literalChar, Bool.and_eq_true] at hl
    exact hl.1
  have hnames := chunkNames_ok cs hcs
  have hscan : tokenScan (assemble cs) = chunkNames cs :=
    tokenScan_assemble cs hcs
  have htrimid : ∀ m ∈ chunkNames cs, jsTrim m = m := by
    intro m hm
    refine jsTrim_eq_self m ?_
    intro c hc
    exact identChar_not_ws c ((hnames m hm).2 c hc)
  have hmapid : (chunkNames cs).map jsTrim = chunkNames cs := by
    rw [show (chunkNames cs).map jsTrim = (chunkNames cs).map id from
      List.map_congr_left (fun a ha => htrimid a ha), List.map_id]
  have hvarnames : (extractVariablesFromContent (assemble cs)).map
      (fun v => v.name) = dedupNames [] (chunkNames cs) := by
    rw [extract_names, hscan, hmapid]
  have hvl : ∀ v ∈ extractVariablesFromContent (assemble cs),
      (∀ c ∈ v.name, c ≠ '}') ∧
      (∀ c ∈ effValue vals v, braceFree c = true) := by
    intro v hv
    have hnm : v.name ∈ chunkNames cs := by
      have h1 : v.name ∈ (extractVariablesFromContent (assemble cs)).map
          (fun v => v.name) := List.mem_map_of_mem _ hv
      rw [hvarnames] at h1
      exact mem_of_mem_dedupNames [] _ _ h1
    constructor
    · intro c hc he
      have hic := (hnames _ hnm).2 c hc
      subst he
      exact absurd hic (by decide)
    · exact effValue_braceFree vals v (extract_defaultValue _ v hv) hvalsb
  have happly : applyTemplate (createTemplate (assemble cs)) vals =
      substitute ((extractVariablesFromContent (assemble cs)).map
        (fun v => (v.name, effValue vals v))) cs := by
    unfold applyTemplate createTemplate
    have hf := foldl_replace_substitute vals cs hcs
      (extractVariablesFromContent (assemble cs)) []
      (by intro p hp; simp at hp) hvl
    rw [substitute_nil_done cs] at hf
    simpa using hf
  have hcov : ∀ m ∈ chunkNames cs,
      (lookupName ((extractVariablesFromContent (assemble cs)).map
        (fun v => (v.name, effValue vals v))) m).isSome = true := by
    intro m hm
    have h1 : m ∈ dedupNames [] (chunkNames cs) :=
      mem_dedupNames_of_mem [] _ m hm (by simp)
    rw [← hvarnames] at h1
    rcases List.mem_map.1 h1 with ⟨v, hv, hvn⟩
    refine lookupName_isSome_of_mem _ m (effValue vals v) ?_
    refine List.mem_map.2 ⟨v, hv, ?_⟩
    rw [hvn]
  have hdone : ∀ p ∈ (extractVariablesFromContent (assemble cs)).map
      (fun v => (v.name, effValue vals v)), ∀ c ∈ p.2, braceFree c = true := by
    intro p hp
    rcases List.mem_map.1 hp with ⟨v, hv, hpv⟩
    rw [← hpv]
    exact (hvl v hv).2
  have hbf := substitute_braceFree cs _ hcs hdone hcov
  have hnl : '{' ∉ substitute ((extractVariablesFromContent (assemble cs)).map
      (fun v => (v.name, effValue vals v))) cs := by
    intro hmem
    have hb := hbf '{' hmem
    simp [braceFree] at hb
  rw [happly]
  unfold hasTemplateToken
  rw [tokenScan_no_lbrace _ hnl]
  rfl

unseal tokenScan replaceAll in
/-- C2 amended witness: the concrete clean template `Hello {{n}}` with
the value `world` supplied for `n` satisfies all hypotheses, and its
applied output is token-free. -/
theorem applyTemplate_no_leftover_tokens_amended_witness :
    (∀ ch ∈ [Chunk.txt "Hello ".toList, Chunk.var "n".toList],
      chunkOK ch = true) ∧
    (∀ e ∈ [({ id := 0, value := "world".toList } : TemplateVariableValue)],
      ∀ c ∈ e.value, literalChar c = true) ∧
    suppliesAll
      (createTemplate (assemble [Chunk.txt "Hello ".toList, Chunk.var "n".toList]))
      [{ id := 0, value := "world".toList }] ∧
    hasTemplateToken (applyTemplate
      (createTemplate (assemble [Chunk.txt "Hello ".toList, Chunk.var "n".toList]))
      [{ id := 0, value := "world".toList }]) = false :=
  ⟨by decide, by decide, by decide,
   applyTemplate_no_leftover_tokens_amended
     [Chunk.txt "Hello ".toList, Chunk.var "n".toList]
     [{ id := 0, value := "world".toList }]
     (by decide) (by decide) (by decide)⟩

end PromptP.Tpl

namespace PromptP.Store

theorem find_map_replace_self {α : Type} (m : JsMap α) (k : Nat) (v : α) :
    (m.map (fun e => if e.1 = k then (k, v) else e)).find? (fun e => e.1 = k) =
      if m.any (fun e => e.1 = k) then some (k, v) else none := by
  induction m with
  | nil => simp
  | cons x rest ih =>
    by_cases hx : x.1 = k
    · have hd : decide (x.1 = k) = true := by simpa using hx
      simp [List.map_cons, if_pos hx, List.find?_cons, List.any_cons, hd]
    · have hd : decide (x.1 = k) = false := by simpa using hx
      simp only [List.map_cons, if_neg hx, List.find?_cons, List.any_cons, hd,
        Bool.false_or, ih]

theorem find_map_replace_ne {α : Type} (m : JsMap α) (k k' : Nat) (v : α)
    (hne : k' ≠ k) :
    (m.map (fun e => if e.1 = k then (k, v) else e)).find? (fun e => e.1 = k') =
      m.find? (fun e => e.1 = k') := by
  induction m with
  | nil => simp
  | cons x rest ih =>
    by_cases hx : x.1 = k
    · have hd1 : decide ((k : Nat) = k') = false := by
        simp only [decide_eq_false_iff_not]
        exact fun h => hne h.symm
      have hd2 : decide (x.1 = k') = false := by
        simp only [decide_eq_false_iff_not]
        exact fun h => hne (hx.symm.trans h).symm
      simp only [List.map_cons, if_pos hx, List.find?_cons, hd1, hd2, ih]
    · by_cases hx' : x.1 = k'
      · have hd : decide (x.1 = k') = true := by simpa using hx'
        simp only [List.map_cons, if_neg hx, List.find?_cons, hd]
      · have hd : decide (x.1 = k') = false := by simpa using hx'
        simp only [List.map_cons, if_neg hx, List.find?_cons, hd, ih]

theorem find_eq_none_of_not_any {α : Type} (m : JsMap α) (k : Nat)
    (h : ¬ m.any (fun e => e.1 = k) = true) :
    m.find? (fun e => e.1 = k) = none := by
  rcases hf : m.find? (fun e => e.1 = k) with _ | e
  · exact hf
  · exact absurd (List.any_eq_true.2
      ⟨e, List.mem_of_find?_eq_some hf, List.find?_some hf⟩) h

theorem mapGet_mapSet_self {α : Type} (m : JsMap α) (k : Nat) (v : α) :
    mapGet (mapSet m k v) k = some v := by
  unfold mapGet mapSet
  by_cases hk : m.any (fun e => e.1 = k)
  · rw [if_pos hk, find_map_replace_self, if_pos hk]
    rfl
  · rw [if_neg hk, List.find?_append, find_eq_none_of_not_any m k hk]
    simp

theorem mapGet_mapSet_ne {α : Type} (m : JsMap α) (k k' : Nat) (v : α)
    (hne : k' ≠ k) : mapGet (mapSet m k v) k' = mapGet m k' := by
  unfold mapGet mapSet
  by_cases hk : m.any (fun e => e.1 = k)
  · rw [if_pos hk, find_map_replace_ne m k k' v hne]
  · rw [if_neg hk, List.find?_append]
    have hkk : decide ((k, v).1 = k') = false := by
      simp only [decide_eq_false_iff_not]
      exact fun h => hne h.symm
    rcases hf : m.find? (fun e => e.1 = k') with _ | e <;>
      simp [hf, List.find?_cons, hkk]

theorem mapGet_some_mem {α : Type} (m : JsMap α) (k : Nat) (v : α)
    (h : mapGet m k = some v) : (k, v) ∈ m := by
  unfold mapGet at h
  rcases hf : m.find? (fun e => e.1 = k) with _ | e
  · rw [hf] at h
    exact absurd h (by simp)
  · rw [hf] at h
    simp only [Option.map, Option.some.injEq] at h
    have hmem2 := List.mem_of_find?_eq_some hf
    have hkey := List.find?_some hf
    simp only [decide_eq_true_eq] at hkey
    have he : e = (k, v) := by
      cases e with
      | mk a b =>
        simp only at hkey h
        rw [hkey, h]
    rw [← he]
    exact hmem2

theorem mapGet_of_mem_nodup {α : Type} (m : JsMap α) (k : Nat) (v : α)
    (hmem : (k, v) ∈ m) (hnd : (m.map Prod.fst).Nodup) :
    mapGet m k = some v := by
  induction m with
  | nil => simp at hmem
  | cons e rest ih =>
    simp only [List.map_cons, List.nodup_cons] at hnd
    rcases List.mem_cons.1 hmem with hm | hm
    · rw [← hm]
      simp [mapGet, List.find?_cons]
    · have hek : decide (e.1 = k) = false := by
        simp only [decide_eq_false_iff_not]
        intro hk
        exact hnd.1 (hk ▸ (List.mem_map.2 ⟨(k, v), hm, rfl⟩))
      simp only [mapGet, List.find?_cons, hek]
      exact ih hm hnd.2

/-- Membership formulation of a successful clerk-id lookup: the found user
row is stored under its own id. -/
theorem getUserByClerkId_mem (s : MemStorage) (cid : List Char) (u : User)
    (huwf : ∀ e ∈ s.users, e.2.id = e.1 ∧ e.1 < s.userIdCounter)
    (hu : getUserByClerkId s cid = some u) : (u.id, u) ∈ s.users := by
  unfold getUserByClerkId at hu
  have hm := List.mem_of_find?_eq_some hu
  rw [mapValues] at hm
  obtain ⟨e, he, hev⟩ := List.mem_map.1 hm
  have hid := (huwf e he).1
  cases e with
  | mk a b =>
    simp only at hev hid
    rw [hev] at hid
    rw [hid, ← hev]
    exact he

/-- C3: when DELETE /api/prompts/:id succeeds (status 200), no subsequent
history query — `getPromptsByUserId`, for any user, with or without a day
limit, at any later time — returns a prompt with the deleted id. -/
theorem delete_removes_from_history (s : MemStorage) (auth : Option (List Char))
    (now : JsDate) (pid : Nat) (hwf : WFStorage s)
    (h200 : (handle s auth now (Request.promptsDelete pid)).1.status = 200) :
    ∀ (userId : Nat) (limitDays : Option Nat) (nowq : JsDate),
      ∀ p ∈ getPromptsByUserId (handle s auth now (Request.promptsDelete pid)).2
          userId limitDays nowq, p.id ≠ pid := by
  obtain ⟨-, -, hpwf, -⟩ := hwf
  intro userId limitDays nowq p hp
  rcases auth with _ | cid
  · simp [handle] at h200
  rcases hby : getUserByClerkId s cid with _ | user
  · simp [handle, hby] at h200
  rcases hpb : getPromptById s pid with _ | prompt
  · simp [handle, hby, hpb] at h200
  by_cases hop : prompt.userId = some user.id
  swap
  · simp [handle, hby, hpb, hop] at h200
  simp only [handle, hby, hpb, if_pos hop] at hp
  have hp2 : p ∈ mapValues (mapDelete s.prompts pid) := by
    have hup : p ∈ ((mapValues (mapDelete s.prompts pid)).filter
        (fun q => q.userId = some userId)).mergeSort
          (fun a b => b.createdAt.ms ≤ a.createdAt.ms) := by
      unfold getPromptsByUserId deletePrompt at hp
      rcases limitDays with _ | dd
      · exact hp
      · by_cases hd : dd = 0
        · simpa [hd] using hp
        · simp only [if_neg hd] at hp
          exact List.mem_of_mem_filter hp
    exact List.mem_of_mem_filter (List.mem_mergeSort.1 hup)
  rw [mapValues] at hp2
  obtain ⟨e, he, hev⟩ := List.mem_map.1 hp2
  rw [mapDelete] at he
  have hmem := List.mem_filter.1 he
  have hne : e.1 ≠ pid := by simpa using hmem.2
  have hid : p.id = e.1 := by
    rw [← hev]
    exact (hpwf e hmem.1).1
  intro hcontra
  exact hne (hid.symm.trans hcontra)

/-- C3 witness: deleting prompt 1 in the sample state succeeds and the
history query for the owner afterwards contains no prompt with id 1. -/
theorem delete_removes_from_history_witness :
    (handle sampleState (some "clerk_alice".toList) dayB
        (Request.promptsDelete 1)).1.status = 200 ∧
      ∀ p ∈ getPromptsByUserId
          (handle sampleState (some "clerk_alice".toList) dayB
            (Request.promptsDelete 1)).2 1 (some 7) dayB, p.id ≠ 1 :=
  ⟨by decide,
   delete_removes_from_history sampleState (some "clerk_alice".toList) dayB 1
     (by decide) (by decide) 1 (some 7) dayB⟩

/-- C1: for a free-tier user, POST /api/prompts/enhance answers 402 (with
the state unchanged) once `promptsUsedToday` has reached the daily limit of
10 and the last prompt date is the same calendar day; on a later calendar
day the same request is accepted (200, `saved: true`) because the counter
is reset to 0 before the limit check, leaving the user with
`promptsUsedToday = 1`. -/
theorem enhance_free_tier_daily_limit (s : MemStorage) (cid : List Char)
    (u : User) (d now1 now2 : JsDate) (op ep : List Char) (role : Role)
    (hwf : WFStorage s) (hu : getUserByClerkId s cid = some u)
    (hplan : u.plan = Plan.free) (hlast : u.lastPromptDate = some d) :
    (isSameDay now1 d = true → FREE_TIER_DAILY_LIMIT ≤ u.promptsUsedToday →
      handle s (some cid) now1 (Request.promptsEnhance op ep role) =
        ({ status := 402 }, s)) ∧
    (isSameDay now2 d = false →
      (handle s (some cid) now2 (Request.promptsEnhance op ep role)).1 =
          { status := 200, saved := some true } ∧
        getUser (handle s (some cid) now2 (Request.promptsEnhance op ep role)).2
            u.id =
          some { u with promptsUsedToday := 1, lastPromptDate := some now2 }) := by
  have hgetu : getUser s u.id = some u := by
    obtain ⟨huwf, hund, -, -⟩ := hwf
    exact mapGet_of_mem_nodup s.users u.id u
      (getUserByClerkId_mem s cid u huwf hu) hund
  constructor
  · intro hsame hquota
    simp [handle, hu, hplan, hlast, hsame, hquota]
  · intro hdiff
    have hreset : resetUserPromptUsage s u.id now2 = { s with users := mapSet s.users u.id { u with promptsUsedToday := 0, lastPromptDate := some now2 } } := by
      unfold resetUserPromptUsage
      rw [hgetu]
    have hget2 : getUser (resetUserPromptUsage s u.id now2) u.id = some { u with promptsUsedToday := 0, lastPromptDate := some now2 } := by
      rw [hreset]
      exact mapGet_mapSet_self s.users u.id _
    have hstep : handle s (some cid) now2 (Request.promptsEnhance op ep role) =
        enhanceSucceed (resetUserPromptUsage s u.id now2) u op ep role now2 := by
      simp [handle, hu, hplan, hlast, hdiff]
    rw [hstep]
    refine ⟨rfl, ?_⟩
    have husers : (enhanceSucceed (resetUserPromptUsage s u.id now2) u op ep role now2).2.users = (incrementUserPromptUsage (resetUserPromptUsage s u.id now2) u.id now2).users := rfl
    have hinc : incrementUserPromptUsage (resetUserPromptUsage s u.id now2) u.id now2 = { (resetUserPromptUsage s u.id now2) with users := mapSet (resetUserPromptUsage s u.id now2).users u.id { u with promptsUsedToday := 1, lastPromptDate := some now2 } } := by
      unfold incrementUserPromptUsage
      rw [hget2]
    unfold getUser
    rw [husers, hinc]
    exact mapGet_mapSet_self _ u.id _

/-- C1 witness: the sample free user (10 prompts used on 2025-01-15) is
rejected with 402 later that day and accepted again on 2025-01-16 with the
counter reset then incremented to 1. -/
theorem enhance_free_tier_daily_limit_witness :
    getUserByClerkId sampleState "clerk_alice".toList = some sampleFreeUser ∧
      ((isSameDay dayASame dayA = true →
          FREE_TIER_DAILY_LIMIT ≤ sampleFreeUser.promptsUsedToday →
          handle sampleState (some "clerk_alice".toList) dayASame
              (Request.promptsEnhance "write a poem".toList [] Role.writer) =
            ({ status := 402 }, sampleState)) ∧
        (isSameDay dayB dayA = false →
          (handle sampleState (some "clerk_alice".toList) dayB
              (Request.promptsEnhance "write a poem".toList [] Role.writer)).1 =
              { status := 200, saved := some true } ∧
            getUser (handle sampleState (some "clerk_alice".toList) dayB
                (Request.promptsEnhance "write a poem".toList [] Role.writer)).2
                sampleFreeUser.id =
              some { sampleFreeUser with promptsUsedToday := 1,
                                         lastPromptDate := some dayB })) :=
  ⟨by decide,
   enhance_free_tier_daily_limit sampleState "clerk_alice".toList sampleFreeUser
     dayA dayASame dayB "write a poem".toList [] Role.writer (by decide)
     (by decide) (by decide) (by decide)⟩

/-- C6 counterexample: a request to POST /api/prompts/enhance carrying no
`x-clerk-user-id` header is answered with HTTP 200 (anonymous usage, with
`saved: false`), not with 401. -/
theorem missing_auth_401_cex :
    (handle MemStorage.init none dayA
        (Request.promptsEnhance "write a poem".toList [] Role.writer)).1 =
      { status := 200, saved := some false } ∧ (200 : Nat) ≠ 401 := by
  constructor
  · rfl
  · decide

/-- C6 (amended): every modelled route that gates on authentication
(users/me, prompts/save, prompts/history, prompts/:id GET and DELETE,
stats/usage) answers 401 when the `x-clerk-user-id` header is missing; the
enhance route instead serves anonymous requests (200, `saved: false`), and
the user-provisioning routes read no header at all. -/
theorem missing_auth_401_amended (s : MemStorage) (now : JsDate)
    (req : Request) (hreq : requiresAuth req = true) :
    (handle s none now req).1.status = 401 := by
  cases req <;> simp_all [handle, requiresAuth]

/-- C6 amended witness: the history route without the header answers 401. -/
theorem missing_auth_401_amended_witness :
    requiresAuth Request.promptsHistory = true ∧
      (handle sampleState none dayA Request.promptsHistory).1.status = 401 :=
  ⟨by decide, missing_auth_401_amended sampleState dayA Request.promptsHistory
    (by decide)⟩

/-- C8: every storage operation other than `deletePrompt` leaves every
already-stored prompt record — all its fields — unchanged: prompts are
immutable once created, except for deletion. -/
theorem prompt_records_immutable (s : MemStorage) (now : JsDate)
    (op : StorageOp) (hwf : WFStorage s) (hnd : op.isDeletePrompt = false)
    (k : Nat) (p : Prompt) (hp : mapGet s.prompts k = some p) :
    mapGet (applyOp s now op).prompts k = some p := by
  obtain ⟨-, -, hpwf, -⟩ := hwf
  cases op with
  | getUser _ => exact hp
  | getUserByUsername _ => exact hp
  | getUserByClerkId _ => exact hp
  | createUser u => exact hp
  | updateUserRole userId role =>
    simp only [applyOp, updateUserRole]
    cases getUser s userId <;> exact hp
  | resetUserPromptUsage userId =>
    simp only [applyOp, resetUserPromptUsage]
    cases getUser s userId <;> exact hp
  | incrementUserPromptUsage userId =>
    simp only [applyOp, incrementUserPromptUsage]
    cases getUser s userId <;> exact hp
  | getPromptById _ => exact hp
  | getPromptsByUserId _ _ => exact hp
  | createPrompt ip =>
    simp only [applyOp, createPrompt]
    have hk : k ≠ s.promptIdCounter := by
      have := (hpwf (k, p) (mapGet_some_mem s.prompts k p hp)).2
      omega
    rw [mapGet_mapSet_ne s.prompts s.promptIdCounter k _ hk]
    exact hp
  | deletePrompt _ => simp [StorageOp.isDeletePrompt] at hnd
  | getUserUsageStats _ => exact hp

/-- C8 witness: creating a new prompt leaves the stored prompt record 1
untouched. -/
theorem prompt_records_immutable_witness :
    WFStorage sampleState ∧
      mapGet (applyOp sampleState dayB
          (StorageOp.createPrompt
            { userId := some 1, originalPrompt := "x".toList,
              enhancedPrompt := "y".toList, role := some Role.writer })).prompts
          1 =
        some samplePrompt :=
  ⟨by decide,
   prompt_records_immutable sampleState dayB _ (by decide) (by decide) 1
     samplePrompt (by decide)⟩

end PromptP.Store

namespace PromptP.Quality

open PromptP.Rx

theorem calculateAspectScore_nonneg (text : List Char) (pats : List Pat)
    (positive : Bool) : 0 ≤ calculateAspectScore text pats positive := by
  unfold calculateAspectScore
  split
  · exact le_min (by norm_num) (by positivity)
  · exact le_max_left 0 _

theorem calculateAspectScore_le_100 (text : List Char) (pats : List Pat)
    (positive : Bool) : calculateAspectScore text pats positive ≤ 100 := by
  unfold calculateAspectScore
  split
  · exact min_le_left _ _
  · exact max_le (by norm_num) (by
      have : (0 : ℚ) ≤ ((pats.map (countP text)).sum : ℚ) * 20 := by positivity
      linarith)

theorem clarityScore_bounds (text : List Char) :
    0 ≤ clarityScore text ∧ clarityScore text ≤ 100 :=
  ⟨calculateAspectScore_nonneg _ _ _, calculateAspectScore_le_100 _ _ _⟩

theorem specificityScore_bounds (text : List Char) :
    0 ≤ specificityScore text ∧ specificityScore text ≤ 100 := by
  unfold specificityScore
  have h1 := calculateAspectScore_nonneg text specificityLacking false
  have h2 := calculateAspectScore_le_100 text specificityLacking false
  have h3 := calculateAspectScore_nonneg text specificityMeasures true
  have h4 := calculateAspectScore_le_100 text specificityMeasures true
  constructor <;> nlinarith

theorem contextScore_bounds (text : List Char) :
    0 ≤ contextScore text ∧ contextScore text ≤ 100 := by
  unfold contextScore
  split <;> norm_num

theorem structureScore_bounds (text : List Char) :
    0 ≤ structureScore text ∧ structureScore text ≤ 100 := by
  unfold structureScore
  have h1 := calculateAspectScore_nonneg text structureSections true
  have h2 := calculateAspectScore_le_100 text structureSections true
  have h3 := calculateAspectScore_nonneg text structureFormatting true
  have h4 := calculateAspectScore_le_100 text structureFormatting true
  constructor <;> nlinarith

theorem completenessScore_bounds (text : List Char) :
    0 ≤ completenessScore text ∧ completenessScore text ≤ 100 := by
  unfold completenessScore
  split_ifs <;> norm_num

/-- C7: for every input text, the analyzer's quality score is an integer in
0..100; it is exactly the rounded fixed weighted linear combination (with
weights 0.25, 0.25, 0.2, 0.15, 0.15, summing to 1) of the five per-category
aspect scores, each of which is itself bounded to 0..100. -/
theorem quality_score_bounds (text : List Char) :
    (0 ≤ (analyzePromptQuality text).score ∧
      (analyzePromptQuality text).score ≤ 100) ∧
    (analyzePromptQuality text).score =
      jsRound (clarityScore text * 0.25 + specificityScore text * 0.25 +
        contextScore text * 0.2 + structureScore text * 0.15 +
        completenessScore text * 0.15) ∧
    (0.25 + 0.25 + 0.2 + 0.15 + 0.15 : ℚ) = 1 ∧
    (0 ≤ clarityScore text ∧ clarityScore text ≤ 100) ∧
    (0 ≤ specificityScore text ∧ specificityScore text ≤ 100) ∧
    (0 ≤ contextScore text ∧ contextScore text ≤ 100) ∧
    (0 ≤ structureScore text ∧ structureScore text ≤ 100) ∧
    (0 ≤ completenessScore text ∧ completenessScore text ≤ 100) := by
  have hc := clarityScore_bounds text
  have hs := specificityScore_bounds text
  have hx := contextScore_bounds text
  have ht := structureScore_bounds text
  have hm := completenessScore_bounds text
  have hscore : (analyzePromptQuality text).score =
      jsRound (clarityScore text * 0.25 + specificityScore text * 0.25 +
        contextScore text * 0.2 + structureScore text * 0.15 +
        completenessScore text * 0.15) := rfl
  refine ⟨⟨?_, ?_⟩, hscore, by norm_num, hc, hs, hx, ht, hm⟩
  · rw [hscore]
    unfold jsRound
    rw [Int.le_floor]
    push_cast
    nlinarith [hc.1, hs.1, hx.1, ht.1, hm.1]
  · rw [hscore]
    unfold jsRound
    have : clarityScore text * 0.25 + specificityScore text * 0.25 +
        contextScore text * 0.2 + structureScore text * 0.15 +
        completenessScore text * 0.15 + 1 / 2 < 101 := by
      nlinarith [hc.2, hs.2, hx.2, ht.2, hm.2]
    have hfl : ⌊clarityScore text * 0.25 + specificityScore text * 0.25 +
        contextScore text * 0.2 + structureScore text * 0.15 +
        completenessScore text * 0.15 + 1 / 2⌋ < 101 := by
      rw [Int.floor_lt]
      push_cast
      linarith
    omega

unseal PromptP.Rx.countFrom in
theorem cex_counts_base :
    ((clarityVague ++ clarityAmbiguous).map (countP "for abc".toList)).sum = 0 ∧
    (specificityLacking.map (countP "for abc".toList)).sum = 0 ∧
    (specificityMeasures.map (countP "for abc".toList)).sum = 0 ∧
    hasContext "for abc".toList = false ∧
    (structureSections.map (countP "for abc".toList)).sum = 0 ∧
    (structureFormatting.map (countP "for abc".toList)).sum = 0 ∧
    hasGoals "for abc".toList = false ∧
    hasConstraints "for abc".toList = false ∧
    hasAudience "for abc".toList = false := by
  decide

unseal PromptP.Rx.countFrom in
theorem cex_counts_inj :
    ((clarityVague ++ clarityAmbiguous).map (countP "for abc stuff".toList)).sum = 1 ∧
    (specificityLacking.map (countP "for abc stuff".toList)).sum = 0 ∧
    (specificityMeasures.map (countP "for abc stuff".toList)).sum = 0 ∧
    hasContext "for abc stuff".toList = true ∧
    (structureSections.map (countP "for abc stuff".toList)).sum = 0 ∧
    (structureFormatting.map (countP "for abc stuff".toList)).sum = 0 ∧
    hasGoals "for abc stuff".toList = false ∧
    hasConstraints "for abc stuff".toList = false ∧
    hasAudience "for abc stuff".toList = false := by
  decide

unseal PromptP.Rx.countFrom in
theorem cex_vague_counts :
    vagueMatchCount "for abc".toList = 0 ∧
      vagueMatchCount "for abc stuff".toList = 1 ∧
      "for abc stuff".toList = "for abc".toList ++ " stuff".toList := by
  decide

/-- The score field of the faithful stateful analysis: the fixed weighted
combination with the completeness aspect taken from the third sequential
round of the mutable `test`s. -/
theorem analyzeSt_score (u : List Char) (s0 : GState) :
    (analyzePromptQualitySt u s0).1.score =
      jsRound (clarityScore u * 0.25 + specificityScore u * 0.25 +
        contextScore u * 0.2 + structureScore u * 0.15 +
        completenessOf (scoreTimeCompleteness u s0) * 0.15) := rfl

/-- C4 counterexample: appending the vague term `stuff` to the fixed text
`for abc` adds one `clarity.vague` match and leaves the text otherwise
unchanged, yet the overall quality score of the analysis (run from the
module-load regex state) increases from 43 to 46 — the injected word
lengthens the text enough to satisfy the `context.defined` regex
`\b(for|to use in)\s[^.]{5,50}(?=\.|$)`, raising the context aspect from
40 to 80 by more than the clarity aspect drops. -/
theorem score_vague_injection_cex :
    "for abc stuff".toList = "for abc".toList ++ " stuff".toList ∧
    vagueMatchCount "for abc".toList = 0 ∧
    vagueMatchCount "for abc stuff".toList = 1 ∧
    (analyzePromptQualitySt "for abc".toList gInit).1.score = 43 ∧
    (analyzePromptQualitySt "for abc stuff".toList gInit).1.score = 46 := by
  obtain ⟨hv0, hv1, happ⟩ := cex_vague_counts
  obtain ⟨b1, b2, b3, b4, b5, b6, b7, b8, b9⟩ := cex_counts_base
  obtain ⟨i1, i2, i3, i4, i5, i6, i7, i8, i9⟩ := cex_counts_inj
  have hst0 : scoreTimeCompleteness "for abc".toList gInit =
      (false, false, false) := by decide
  have hst1 : scoreTimeCompleteness "for abc stuff".toList gInit =
      (false, false, false) := by decide
  refine ⟨happ, hv0, hv1, ?_, ?_⟩
  · rw [analyzeSt_score, hst0]
    unfold clarityScore specificityScore contextScore
      structureScore completenessOf calculateAspectScore
    rw [b1, b2, b3, b4, b5, b6]
    norm_num
    unfold jsRound
    rw [Int.floor_eq_iff]
    constructor <;> norm_num
  · rw [analyzeSt_score, hst1]
    unfold clarityScore specificityScore contextScore
      structureScore completenessOf calculateAspectScore
    rw [i1, i2, i3, i4, i5, i6]
    norm_num
    unfold jsRound
    rw [Int.floor_eq_iff]
    constructor <;> norm_num

/-- C4 (amended): injecting additional vague-term matches never increases
the overall score provided the injection leaves every other input of the
score — as the program actually computes it — unchanged: the
ambiguous-pronoun count, the specificity counts, the context match, the
structure counts, and the completeness booleans that the score phase
observes on the mutable `g`-flagged regexes (their third sequential
`test` round, from the respective incoming regex states). (Without the
proviso the claim is false: the counterexample shows an injected vague
term toggling the context regex and raising the score.) -/
theorem score_vague_monotone_amended (t t2 : List Char) (st st2 : GState)
    (hvag : (clarityVague.map (countP t)).sum ≤ (clarityVague.map (countP t2)).sum)
    (hamb : (clarityAmbiguous.map (countP t2)).sum = (clarityAmbiguous.map (countP t)).sum)
    (hlack : (specificityLacking.map (countP t2)).sum = (specificityLacking.map (countP t)).sum)
    (hmeas : (specificityMeasures.map (countP t2)).sum = (specificityMeasures.map (countP t)).sum)
    (hctx : hasContext t2 = hasContext t)
    (hsec : (structureSections.map (countP t2)).sum = (structureSections.map (countP t)).sum)
    (hfmt : (structureFormatting.map (countP t2)).sum = (structureFormatting.map (countP t)).sum)
    (hcomp : scoreTimeCompleteness t2 st2 = scoreTimeCompleteness t st) :
    (analyzePromptQualitySt t2 st2).1.score ≤
      (analyzePromptQualitySt t st).1.score := by
  have hcl : clarityScore t2 ≤ clarityScore t := by
    unfold clarityScore calculateAspectScore
    simp only [List.map_append, List.sum_append, if_neg Bool.false_ne_true]
    have hle : ((clarityVague.map (countP t)).sum : ℚ) +
        (clarityAmbiguous.map (countP t)).sum ≤
        ((clarityVague.map (countP t2)).sum : ℚ) +
        (clarityAmbiguous.map (countP t2)).sum := by
      rw [hamb]
      have := (Nat.cast_le (α := ℚ)).2 hvag
      linarith
    apply max_le_max le_rfl
    push_cast at hle ⊢
    linarith
  have hsp : specificityScore t2 = specificityScore t := by
    unfold specificityScore calculateAspectScore
    rw [hlack, hmeas]
  have hcx : contextScore t2 = contextScore t := by
    unfold contextScore
    rw [hctx]
  have hst : structureScore t2 = structureScore t := by
    unfold structureScore calculateAspectScore
    rw [hsec, hfmt]
  rw [analyzeSt_score, analyzeSt_score, hcomp]
  unfold jsRound
  apply Int.floor_le_floor
  rw [hsp, hcx, hst]
  have : clarityScore t2 * 0.25 ≤ clarityScore t * 0.25 := by linarith
  linarith

unseal PromptP.Rx.countFrom in
theorem amended_witness_counts :
    ((clarityVague.map (countP "for abc stuff".toList)).sum ≤
      (clarityVague.map (countP "for abc stuff stuff".toList)).sum) ∧
    (clarityAmbiguous.map (countP "for abc stuff stuff".toList)).sum =
      (clarityAmbiguous.map (countP "for abc stuff".toList)).sum ∧
    (specificityLacking.map (countP "for abc stuff stuff".toList)).sum =
      (specificityLacking.map (countP "for abc stuff".toList)).sum ∧
    (specificityMeasures.map (countP "for abc stuff stuff".toList)).sum =
      (specificityMeasures.map (countP "for abc stuff".toList)).sum ∧
    hasContext "for abc stuff stuff".toList = hasContext "for abc stuff".toList ∧
    (structureSections.map (countP "for abc stuff stuff".toList)).sum =
      (structureSections.map (countP "for abc stuff".toList)).sum ∧
    (structureFormatting.map (countP "for abc stuff stuff".toList)).sum =
      (structureFormatting.map (countP "for abc stuff".toList)).sum ∧
    hasGoals "for abc stuff stuff".toList = hasGoals "for abc stuff".toList ∧
    hasConstraints "for abc stuff stuff".toList =
      hasConstraints "for abc stuff".toList ∧
    hasAudience "for abc stuff stuff".toList =
      hasAudience "for abc stuff".toList := by
  decide

/-- C4 amended witness: a second injected `stuff` (which leaves all the
other score inputs — the third-round completeness booleans included —
unchanged, both analyses run from the module-load regex state) does not
increase the score. -/
theorem score_vague_monotone_amended_witness :
    ((clarityVague.map (countP "for abc stuff".toList)).sum ≤
      (clarityVague.map (countP "for abc stuff stuff".toList)).sum) ∧
    scoreTimeCompleteness "for abc stuff stuff".toList gInit =
      scoreTimeCompleteness "for abc stuff".toList gInit ∧
    (analyzePromptQualitySt "for abc stuff stuff".toList gInit).1.score ≤
      (analyzePromptQualitySt "for abc stuff".toList gInit).1.score :=
  ⟨amended_witness_counts.1, by decide,
   score_vague_monotone_amended "for abc stuff".toList
     "for abc stuff stuff".toList gInit gInit amended_witness_counts.1
     amended_witness_counts.2.1 amended_witness_counts.2.2.1
     amended_witness_counts.2.2.2.1 amended_witness_counts.2.2.2.2.1
     amended_witness_counts.2.2.2.2.2.1 amended_witness_counts.2.2.2.2.2.2.1
     (by decide)⟩

end PromptP.Quality

namespace PromptP

theorem splitWS_nil (acc : List Char) : splitWS [] acc = [acc.reverse] := by
  rw [splitWS.eq_def]

theorem splitWS_cons (c : Char) (rest acc : List Char) :
    splitWS (c :: rest) acc =
      if isWS c then acc.reverse :: splitWS (rest.dropWhile isWS) []
      else splitWS rest (c :: acc) := by
  rw [splitWS.eq_def]

theorem cwState_dropWhile (r : List Char) :
    cwState false (r.dropWhile isWS) = cwState false r := by
  induction r with
  | nil => rfl
  | cons c rest ih =>
    by_cases hc : isWS c = true
    · rw [List.dropWhile_cons_of_pos hc, ih]
      simp [cwState, hc]
    · rw [List.dropWhile_cons_of_neg hc]

theorem splitWS_filter_len (n : Nat) :
    ∀ (s acc : List Char), s.length ≤ n →
      ((splitWS s acc).filter (fun w => !w.isEmpty)).length =
        (if acc.isEmpty then 0 else 1) + cwState (!acc.isEmpty) s := by
  induction n with
  | zero =>
    intro s acc hs
    have hnil : s = [] := List.eq_nil_of_length_eq_zero (Nat.le_zero.1 hs)
    subst hnil
    rw [splitWS_nil]
    by_cases ha : acc = []
    · subst ha; simp [cwState]
    · have h1 : acc.reverse.isEmpty = false := by simp [List.isEmpty_iff, ha]
      have h2 : acc.isEmpty = false := by simp [List.isEmpty_iff, ha]
      simp [List.filter, h1, h2, cwState]
  | succ m ih =>
    intro s acc hs
    rcases s with _ | ⟨c, rest⟩
    · rw [splitWS_nil]
      by_cases ha : acc = []
      · subst ha; simp [cwState]
      · have h1 : acc.reverse.isEmpty = false := by simp [List.isEmpty_iff, ha]
        have h2 : acc.isEmpty = false := by simp [List.isEmpty_iff, ha]
        simp [List.filter, h1, h2, cwState]
    · simp only [List.length_cons] at hs
      by_cases hc : isWS c = true
      · have hsub : List.Sublist (rest.dropWhile isWS) rest :=
          List.dropWhile_sublist isWS
        have hlen : (rest.dropWhile isWS).length ≤ m := by
          have h1 := hsub.length_le
          omega
        rw [splitWS_cons, if_pos hc, List.filter_cons]
        have hrec := ih (rest.dropWhile isWS) [] hlen
        simp at hrec
        have hcw : cwState (!acc.isEmpty) (c :: rest) = cwState false rest := by
          simp [cwState, hc]
        rw [hcw]
        by_cases ha : acc = []
        · subst ha
          simp only [List.reverse_nil, List.isEmpty_nil, Bool.not_true,
            List.isEmpty_iff]
          rw [if_neg (by simp : ¬((false : Bool) = true)), hrec,
            cwState_dropWhile]
          simp
        · have h1 : acc.reverse.isEmpty = false := by
            simp [List.isEmpty_iff, ha]
          have h2 : acc.isEmpty = false := by simp [List.isEmpty_iff, ha]
          rw [h1]
          rw [if_pos (by simp : ((!false : Bool) = true))]
          rw [List.length_cons, hrec, cwState_dropWhile, h2]
          simp only [if_neg (by simp : ¬((false : Bool) = true))]
          omega
      · have hcb : isWS c = false := by simpa using hc
        have hlen : rest.length ≤ m := by omega
        rw [splitWS_cons, if_neg hc]
        rw [ih rest (c :: acc) hlen]
        have h2 : (c :: acc).isEmpty = false := by simp
        rw [h2]
        have hcw : cwState (!acc.isEmpty) (c :: rest) =
            (if acc.isEmpty then 1 else 0) + cwState true rest := by
          by_cases ha : acc.isEmpty = true
          · simp [cwState, hcb, ha]
          · have h3 : acc.isEmpty = false := by simpa using ha
            simp [cwState, hcb, h3]
        rw [hcw]
        by_cases ha : acc.isEmpty = true
        · simp [ha, cwState]
        · have h3 : acc.isEmpty = false := by simpa using ha
          simp [h3, cwState]

theorem countWords_eq_cwState (s : List Char) :
    countWords s = cwState false s := by
  unfold countWords
  rw [splitWS_filter_len s.length s [] le_rfl]
  simp

theorem cwState_cons_ws (β : Bool) (c : Char) (r : List Char)
    (hc : isWS c = true) : cwState β (c :: r) = cwState false r := by
  simp [cwState, hc]

theorem cwState_cons_nws (β : Bool) (c : Char) (r : List Char)
    (hc : isWS c = false) :
    cwState β (c :: r) = (if β then 0 else 1) + cwState true r := by
  simp [cwState, hc]

theorem cwState_append_ws (w : Char) (hw : isWS w = true) :
    ∀ (a b : List Char) (β : Bool),
      cwState β (a ++ w :: b) = cwState β a + cwState false b := by
  intro a
  induction a with
  | nil =>
    intro b β
    rw [List.nil_append, cwState_cons_ws β w b hw]
    have h0 : cwState β ([] : List Char) = 0 := rfl
    rw [h0]
    omega
  | cons c a2 ih =>
    intro b β
    rw [List.cons_append]
    by_cases hc : isWS c = true
    · rw [cwState_cons_ws β c _ hc, cwState_cons_ws β c a2 hc, ih]
    · have hcf : isWS c = false := by simpa using hc
      rw [cwState_cons_nws β c _ hcf, cwState_cons_nws β c a2 hcf, ih]
      omega

theorem cwState_allWS (l : List Char) (hl : ∀ c ∈ l, isWS c = true) (β : Bool) :
    cwState β l = 0 := by
  induction l generalizing β with
  | nil => rfl
  | cons c rest ih =>
    have hc := hl c (by simp)
    simp only [cwState, hc, if_pos rfl]
    exact ih (fun x hx => hl x (by simp [hx])) false

theorem cwState_jsTrim (s : List Char) :
    cwState false (jsTrim s) = cwState false s := by
  unfold jsTrim
  rw [← cwState_dropWhile s]
  generalize s.dropWhile isWS = t
  have hsplit := List.takeWhile_append_dropWhile isWS t.reverse
  have hW : ∀ c ∈ t.reverse.takeWhile isWS, isWS c = true := by
    intro c hc
    exact List.mem_takeWhile_imp hc
  rcases hrw : t.reverse.takeWhile isWS with _ | ⟨w, ws2⟩
  · rw [hrw, List.nil_append] at hsplit
    rw [hsplit, List.reverse_reverse]
  · rw [hrw] at hsplit hW
    have hrev : t = (t.reverse.dropWhile isWS).reverse ++ (w :: ws2).reverse := by
      have h1 : t.reverse.reverse =
          ((w :: ws2) ++ t.reverse.dropWhile isWS).reverse := by
        rw [hsplit]
      rw [List.reverse_reverse, List.reverse_append] at h1
      exact h1
    rcases hrev2 : (w :: ws2).reverse with _ | ⟨x, xs⟩
    · exact absurd (congrArg List.length hrev2) (by simp)
    · rw [hrev2] at hrev
      have hxmem : ∀ c ∈ x :: xs, isWS c = true := by
        intro c hc
        apply hW c
        have : c ∈ (w :: ws2).reverse := by rw [hrev2]; exact hc
        exact List.mem_reverse.1 this
      have hx : isWS x = true := hxmem x (by simp)
      have hz : cwState false xs = 0 :=
        cwState_allWS xs (fun c hc => hxmem c (by simp [hc])) false
      have hcalc : cwState false t =
          cwState false ((t.reverse.dropWhile isWS).reverse) +
            cwState false xs := by
        conv_lhs => rw [hrev]
        exact cwState_append_ws x hx _ xs false
      rw [hcalc, hz]
      omega

end PromptP


namespace PromptP.AiEngine

open PromptP

set_option maxRecDepth 8000

theorem cw_lt_medium (T : List Char) (role : UserRole) :
    cwState false T <
      cwState false (T ++ "\n\nPlease include:\n".toList ++
        joinSep "\n".toList
          ((contextTemplates.take 1 ++ structureTemplates.take 1 ++
            detailsTemplates.take 2 ++
            (roleSpecificEnhancements role).take 2).map
            (fun e => "- ".toList ++ e))) := by
  have hsplit : ("\n\nPlease include:\n".toList : List Char) =
      '\n' :: "\nPlease include:\n".toList := by decide
  rw [hsplit, List.append_assoc, List.cons_append,
    cwState_append_ws '\n' (by decide) T _ false]
  have h1 : 1 ≤ cwState false ("\nPlease include:\n".toList ++
      joinSep "\n".toList
        ((contextTemplates.take 1 ++ structureTemplates.take 1 ++
          detailsTemplates.take 2 ++
          (roleSpecificEnhancements role).take 2).map
          (fun e => "- ".toList ++ e))) := by
    cases role <;> decide
  omega

theorem cw_lt_long (T : List Char) (role : UserRole) :
    cwState false T <
      cwState false (T ++ "\n\nAdditional requirements:\n".toList ++
        joinSep "\n".toList
          (((roleSpecificEnhancements role).take 3).map
            (fun e => "- ".toList ++ e)) ++
        "\n\nEnsure the output is comprehensive, well-structured, and aligned with professional standards for this type of content.".toList) := by
  have hsplit : ("\n\nAdditional requirements:\n".toList : List Char) =
      '\n' :: "\nAdditional requirements:\n".toList := by decide
  rw [hsplit, List.append_assoc, List.append_assoc, List.cons_append,
    cwState_append_ws '\n' (by decide) T _ false]
  have h1 : 1 ≤ cwState false ("\nAdditional requirements:\n".toList ++
      (joinSep "\n".toList
        (((roleSpecificEnhancements role).take 3).map
          (fun e => "- ".toList ++ e)) ++
        "\n\nEnsure the output is comprehensive, well-structured, and aligned with professional standards for this type of content.".toList)) := by
    cases role <;> decide
  omega

theorem cw_lt_short (T tp : List Char) (role : UserRole) (flag : Bool)
    (htp : tp = [] ∨ ∃ J, tp = J ++ [' ']) :
    cwState false T <
      cwState false
        ((if flag then
            ("Provide a detailed and comprehensive ".toList ++ tp ++ T ++
              " that includes:\n\n".toList) ++ joinSep "\n".toList sectionsList
          else
            "Provide a detailed and comprehensive ".toList ++ tp ++ T ++
              " that includes:\n\n".toList) ++
          "\n\nAlso include:\n".toList ++
          joinSep "\n".toList
            (((roleSpecificEnhancements role).take 2).map
              (fun e => "- ".toList ++ e))) := by
  have h0 : ("Provide a detailed and comprehensive ".toList : List Char) =
      "Provide a detailed and comprehensive".toList ++ [' '] := by decide
  have h5 : 1 ≤ cwState false "Provide a detailed and comprehensive".toList := by
    decide
  have hl2 : (" that includes:\n\n".toList : List Char) =
      ' ' :: "that includes:\n\n".toList := by decide
  by_cases hf : flag = true
  · rw [if_pos hf]
    simp only [List.append_assoc]
    rw [h0, List.append_assoc, List.singleton_append,
      cwState_append_ws ' ' (by decide) _ _ false]
    rcases htp with htp | ⟨J, htp⟩
    · subst htp
      rw [List.nil_append, hl2, List.cons_append,
        cwState_append_ws ' ' (by decide) T _ false]
      omega
    · subst htp
      rw [List.append_assoc, List.singleton_append,
        cwState_append_ws ' ' (by decide) J _ false, hl2, List.cons_append,
        cwState_append_ws ' ' (by decide) T _ false]
      omega
  · rw [if_neg hf]
    simp only [List.append_assoc]
    rw [h0, List.append_assoc, List.singleton_append,
      cwState_append_ws ' ' (by decide) _ _ false]
    rcases htp with htp | ⟨J, htp⟩
    · subst htp
      rw [List.nil_append, hl2, List.cons_append,
        cwState_append_ws ' ' (by decide) T _ false]
      omega
    · subst htp
      rw [List.append_assoc, List.singleton_append,
        cwState_append_ws ' ' (by decide) J _ false, hl2, List.cons_append,
        cwState_append_ws ' ' (by decide) T _ false]
      omega

/-- C5: the enhancement function is deterministic — two invocations with
the same prompt text, the same role and the same sections flag produce
byte-identical `EnhancedPrompt` records. `enhancePrompt` is a pure
function of its arguments (the source reads no clock, randomness or
external state). -/
theorem enhancePrompt_deterministic (p1 p2 : List Char) (r1 r2 : UserRole)
    (f1 f2 : Bool) (hp : p1 = p2) (hr : r1 = r2) (hf : f1 = f2) :
    enhancePrompt p1 r1 f1 = enhancePrompt p2 r2 f2 := by
  rw [hp, hr, hf]

/-- C5 witness: two identical concrete invocations agree. -/
theorem enhancePrompt_deterministic_witness :
    "write a poem".toList = "write a poem".toList ∧
      enhancePrompt "write a poem".toList UserRole.writer true =
        enhancePrompt "write a poem".toList UserRole.writer true :=
  ⟨rfl, enhancePrompt_deterministic "write a poem".toList
    "write a poem".toList UserRole.writer UserRole.writer true true rfl rfl rfl⟩

/-- C9: for every prompt that is not whitespace-only and every role (and
either value of the sections flag), the enhanced text has strictly more
words than the original prompt, both as measured by `countWords` on the
texts and as reported in the returned `wordCount` record. -/
theorem enhance_increases_word_count (p : List Char) (role : UserRole)
    (flag : Bool) (h : PromptP.jsTrim p ≠ []) :
    PromptP.countWords p <
      PromptP.countWords (enhancePrompt p role flag).enhanced ∧
    (enhancePrompt p role flag).wordCount.original <
      (enhancePrompt p role flag).wordCount.enhanced := by
  have hne : ¬((PromptP.jsTrim p).isEmpty = true) := by
    simpa [List.isEmpty_iff] using h
  have hcore : PromptP.countWords (PromptP.jsTrim p) <
      PromptP.countWords (enhancePrompt p role flag).enhanced := by
    simp only [enhancePrompt]
    rw [if_neg hne]
    dsimp only
    rw [countWords_eq_cwState, countWords_eq_cwState]
    by_cases h5 : PromptP.cwState false (PromptP.jsTrim p) < 5
    · rw [if_pos h5]
      have hlen2 : 0 < ((roleSpecificEnhancements role).take 2).length := by
        cases role <;> decide
      rw [if_pos hlen2]
      by_cases htp : 0 < (detectTopics (PromptP.jsTrim p)).length
      · rw [if_pos htp]
        exact cw_lt_short (PromptP.jsTrim p)
          (joinSep "/".toList (detectTopics (PromptP.jsTrim p)) ++ " ".toList)
          role flag
          (Or.inr ⟨joinSep "/".toList (detectTopics (PromptP.jsTrim p)), by
            rw [show (" ".toList : List Char) = [' '] from by decide]⟩)
      · rw [if_neg htp]
        exact cw_lt_short (PromptP.jsTrim p) [] role flag (Or.inl rfl)
    · rw [if_neg h5]
      by_cases h15 : PromptP.cwState false (PromptP.jsTrim p) < 15
      · rw [if_pos h15]
        exact cw_lt_medium (PromptP.jsTrim p) role
      · rw [if_neg h15]
        exact cw_lt_long (PromptP.jsTrim p) role
  have hproj1 : (enhancePrompt p role flag).wordCount.original =
      PromptP.countWords (PromptP.jsTrim p) := by
    simp only [enhancePrompt]
    rw [if_neg hne]
  have hproj2 : (enhancePrompt p role flag).wordCount.enhanced =
      PromptP.countWords (enhancePrompt p role flag).enhanced := by
    simp only [enhancePrompt]
    rw [if_neg hne]
  constructor
  · have hp : PromptP.countWords p = PromptP.countWords (PromptP.jsTrim p) := by
      rw [countWords_eq_cwState, countWords_eq_cwState, cwState_jsTrim]
    rw [hp]
    exact hcore
  · rw [hproj1, hproj2]
    exact hcore

unseal PromptP.splitWS in
/-- C9 witness: the concrete prompt `write a poem` (3 words) is enhanced to
a strictly longer text. -/
theorem enhance_increases_word_count_witness :
    PromptP.jsTrim "write a poem".toList ≠ [] ∧
      PromptP.countWords "write a poem".toList <
        PromptP.countWords
          (enhancePrompt "write a poem".toList UserRole.writer true).enhanced :=
  ⟨by decide,
   (enhance_increases_word_count "write a poem".toList UserRole.writer true
     (by decide)).1⟩

end PromptP.AiEngine
